import Mathlib

/-!
# Arbitrage detector: calculator and odds cache

A shallow embedding of `internal/arbitrage/calculator.go`, `internal/models/models.go`
and of the cache handling of `cmd/detector/main.go`.

Numbers.  Go `float64` values are modelled by `F64`: a finite value is a rational
(the exact value of the double), and the IEEE special values `+Inf`, `-Inf` and
`NaN` are kept.  `F64.round` is the IEEE binary64 rounding (to nearest, ties to
even, with subnormals and overflow to an infinity), and the operations `add64`,
`sub64`, `mul64`, `div64` are the Go operations: the exact result, rounded.  The
operations `add`, `sub`, `mul`, `div` are the same without the rounding; they give
`DetectArbitrage`, the calculator in exact arithmetic, which the statements made
"in exact arithmetic" are about, while `DetectArbitrage64` and `FormatOdds` run on
the rounded operations.  The sign of zero is not modelled: the only zero is `+0`.

Time.  A `time.Time` is an integer number of nanoseconds, a `time.Duration` is an
`int64` number of nanoseconds and `Time.Sub` saturates as in Go.
-/

namespace Arbitrage

/-! ## float64 -/

/-- Values of a Go `float64`: exact finite values and the IEEE special values. -/
inductive F64 where
  | fin (q : ℚ)
  | posInf
  | negInf
  | nan
  deriving DecidableEq

namespace F64

/-- Unary minus. -/
def neg : F64 → F64
  | fin a => fin (-a)
  | posInf => negInf
  | negInf => posInf
  | nan => nan

/-- Addition before rounding: exact on finite values, IEEE on the special values. -/
def add : F64 → F64 → F64
  | fin a, fin b => fin (a + b)
  | fin _, posInf => posInf
  | fin _, negInf => negInf
  | posInf, fin _ => posInf
  | negInf, fin _ => negInf
  | posInf, posInf => posInf
  | negInf, negInf => negInf
  | posInf, negInf => nan
  | negInf, posInf => nan
  | nan, _ => nan
  | _, nan => nan

/-- Subtraction before rounding. -/
def sub (x y : F64) : F64 := add x (neg y)

/-- The infinity whose sign is that of `a`, flipped when `positive` is false; `NaN`
for `a = 0`. -/
def infOfSign (positive : Bool) (a : ℚ) : F64 :=
  if a = 0 then nan
  else if (0 < a) = positive then posInf else negInf

/-- Multiplication before rounding: exact on finite values, IEEE on the special
values. -/
def mul : F64 → F64 → F64
  | fin a, fin b => fin (a * b)
  | fin a, posInf => infOfSign true a
  | fin a, negInf => infOfSign false a
  | posInf, fin b => infOfSign true b
  | negInf, fin b => infOfSign false b
  | posInf, posInf => posInf
  | negInf, negInf => posInf
  | posInf, negInf => negInf
  | negInf, posInf => negInf
  | nan, _ => nan
  | _, nan => nan

/-- Division before rounding: exact on finite values; the zero divisor is `+0`, so
a finite nonzero value divided by zero is the infinity of its own sign and `0/0` is
`NaN`. -/
def div : F64 → F64 → F64
  | fin a, fin b => if b = 0 then infOfSign true a else fin (a / b)
  | fin _, posInf => fin 0
  | fin _, negInf => fin 0
  | posInf, fin b => if b < 0 then negInf else posInf
  | negInf, fin b => if b < 0 then posInf else negInf
  | posInf, posInf => nan
  | posInf, negInf => nan
  | negInf, posInf => nan
  | negInf, negInf => nan
  | nan, _ => nan
  | _, nan => nan

/-- The Go comparison `x < y`: false as soon as one side is `NaN`. -/
def lt : F64 → F64 → Bool
  | fin a, fin b => decide (a < b)
  | fin _, posInf => true
  | negInf, fin _ => true
  | negInf, posInf => true
  | _, _ => false

/-- The Go comparison `x > y`. -/
def gt (x y : F64) : Bool := lt y x

/-- The Go comparison `x >= y`: false as soon as one side is `NaN`. -/
def ge : F64 → F64 → Bool
  | fin a, fin b => decide (b ≤ a)
  | posInf, fin _ => true
  | fin _, negInf => true
  | posInf, negInf => true
  | posInf, posInf => true
  | negInf, negInf => true
  | _, _ => false

/-- A value is finite when it is neither an infinity nor `NaN`. -/
def isFinite : F64 → Bool
  | fin _ => true
  | _ => false

end F64

/-- Rounding to the nearest integer, ties to the even one, as a binary64 operation
rounds its significand and as `%.0f` rounds. -/
def roundHalfEven (q : ℚ) : ℤ :=
  if q - ⌊q⌋ < 1 / 2 then ⌊q⌋
  else if 1 / 2 < q - ⌊q⌋ then ⌊q⌋ + 1
  else if ⌊q⌋ % 2 = 0 then ⌊q⌋ else ⌊q⌋ + 1

namespace F64

/-- IEEE binary64 rounding of an exact result, to nearest with ties to even.  For
`q ≠ 0` with `2 ^ e ≤ |q| < 2 ^ (e + 1)` the spacing of the doubles around `q` is
`2 ^ (e - 52)`, and `2 ^ (-1074)` in the subnormal range `e < -1022`; the
magnitude is rounded to a multiple of the spacing and a rounded magnitude of
`2 ^ 1024` or more overflows to the infinity of the sign of `q`. -/
def round : F64 → F64
  | fin q =>
    if q = 0 then fin 0
    else
      let e : ℤ := max (Int.log 2 |q|) (-1022)
      let ulp : ℚ := 2 ^ (e - 52)
      let m : ℤ := roundHalfEven (|q| / ulp)
      if (2 : ℚ) ^ (1024 : ℤ) ≤ m * ulp then (if 0 < q then posInf else negInf)
      else fin (if 0 < q then m * ulp else -(m * ulp))
  | posInf => posInf
  | negInf => negInf
  | nan => nan

/-- Go `x + y` on `float64`. -/
def add64 (x y : F64) : F64 := round (add x y)

/-- Go `x - y` on `float64`. -/
def sub64 (x y : F64) : F64 := round (sub x y)

/-- Go `x * y` on `float64`. -/
def mul64 (x y : F64) : F64 := round (mul x y)

/-- Go `x / y` on `float64`. -/
def div64 (x y : F64) : F64 := round (div x y)

end F64

/-! ## models.go -/

/-- Odds from a sportsbook (`models.OddsUpdate`). -/
structure OddsUpdate where
  ID : String
  EventID : String
  Sport : String
  HomeTeam : String
  AwayTeam : String
  Bookmaker : String
  HomeOdds : F64
  AwayOdds : F64
  DrawOdds : F64
  Timestamp : Int
  MarketType : String
  deriving DecidableEq

/-- A profitable betting opportunity (`models.ArbitrageOpportunity`). -/
structure ArbitrageOpportunity where
  ID : String
  EventID : String
  Sport : String
  HomeTeam : String
  AwayTeam : String
  BookmakerHome : String
  BookmakerAway : String
  HomeOdds : F64
  AwayOdds : F64
  ProfitPercent : F64
  HomeStake : F64
  AwayStake : F64
  TotalStake : F64
  ExpectedReturn : F64
  CreatedAt : Int
  ExpiresAt : Int
  Status : String
  deriving DecidableEq

/-! ## calculator.go -/

/-- The calculator and its minimum profit percentage. -/
structure Calculator where
  minProfit : F64

/-- `NewCalculator`. -/
def NewCalculator (minProfit : F64) : Calculator := { minProfit := minProfit }

/-- What one call of `DetectArbitrage` reads from outside: the string of
`uuid.New()` and the two readings of `time.Now()`. -/
structure Env where
  uuid : String
  createdNow : Int
  expiresNow : Int

/-- One element of the `combinations` slice. -/
structure Combo where
  homeOdds : F64
  awayOdds : F64
  homeBookmaker : String
  awayBookmaker : String

/-- The four loop variables `bestHomeOdds`, `bestAwayOdds`, `bestHomeBookmaker`,
`bestAwayBookmaker`. -/
structure Best where
  bestHomeOdds : F64
  bestAwayOdds : F64
  bestHomeBookmaker : String
  bestAwayBookmaker : String

/-- The zero values the loop variables are declared with. -/
def Best.zero : Best :=
  { bestHomeOdds := F64.fin 0, bestAwayOdds := F64.fin 0,
    bestHomeBookmaker := "", bestAwayBookmaker := "" }

/-- The `combinations` slice, in source order. -/
def combinations (odds1 odds2 : OddsUpdate) : List Combo :=
  [ ⟨odds1.HomeOdds, odds2.AwayOdds, odds1.Bookmaker, odds2.Bookmaker⟩,
    ⟨odds2.HomeOdds, odds1.AwayOdds, odds2.Bookmaker, odds1.Bookmaker⟩,
    ⟨odds1.HomeOdds, odds1.AwayOdds, odds1.Bookmaker, odds1.Bookmaker⟩,
    ⟨odds2.HomeOdds, odds2.AwayOdds, odds2.Bookmaker, odds2.Bookmaker⟩ ]

/-- One iteration of the loop over `combinations`. -/
def Best.step (b : Best) (combo : Combo) : Best :=
  let b1 : Best :=
    if F64.gt combo.homeOdds b.bestHomeOdds then
      { b with bestHomeOdds := combo.homeOdds, bestHomeBookmaker := combo.homeBookmaker }
    else b
  if F64.gt combo.awayOdds b1.bestAwayOdds then
    { b1 with bestAwayOdds := combo.awayOdds, bestAwayBookmaker := combo.awayBookmaker }
  else b1

/-- The loop over `combinations`. -/
def bestOf (odds1 odds2 : OddsUpdate) : Best :=
  (combinations odds1 odds2).foldl Best.step Best.zero

/-- Five minutes, in nanoseconds. -/
def fiveMinutes : Int := 5 * 60 * 1000000000

/-- `Calculator.DetectArbitrage` in exact arithmetic: the operations are not
rounded; `none` is the `nil` result. -/
def DetectArbitrage (c : Calculator) (env : Env) (odds1 odds2 : OddsUpdate) :
    Option ArbitrageOpportunity :=
  if odds1.EventID ≠ odds2.EventID then none
  else
    let best := bestOf odds1 odds2
    let impliedProbHome := F64.div (F64.fin 1) best.bestHomeOdds
    let impliedProbAway := F64.div (F64.fin 1) best.bestAwayOdds
    let totalImpliedProb := F64.add impliedProbHome impliedProbAway
    if F64.ge totalImpliedProb (F64.fin 1) then none
    else
      let profitPercent :=
        F64.mul (F64.sub (F64.div (F64.fin 1) totalImpliedProb) (F64.fin 1)) (F64.fin 100)
      if F64.lt profitPercent c.minProfit then none
      else
        let totalStake := F64.fin 1000
        let homeStake := F64.div (F64.mul totalStake impliedProbHome) totalImpliedProb
        let awayStake := F64.div (F64.mul totalStake impliedProbAway) totalImpliedProb
        let expectedReturn :=
          F64.mul totalStake (F64.add (F64.fin 1) (F64.div profitPercent (F64.fin 100)))
        some
          { ID := env.uuid
            EventID := odds1.EventID
            Sport := odds1.Sport
            HomeTeam := odds1.HomeTeam
            AwayTeam := odds1.AwayTeam
            BookmakerHome := best.bestHomeBookmaker
            BookmakerAway := best.bestAwayBookmaker
            HomeOdds := best.bestHomeOdds
            AwayOdds := best.bestAwayOdds
            ProfitPercent := profitPercent
            HomeStake := homeStake
            AwayStake := awayStake
            TotalStake := totalStake
            ExpectedReturn := expectedReturn
            CreatedAt := env.createdNow
            ExpiresAt := env.expiresNow + fiveMinutes
            Status := "active" }


/-- `Calculator.DetectArbitrage` on `float64` operations, each one rounded as Go
rounds it; `none` is the `nil` result. -/
def DetectArbitrage64 (c : Calculator) (env : Env) (odds1 odds2 : OddsUpdate) :
    Option ArbitrageOpportunity :=
  if odds1.EventID ≠ odds2.EventID then none
  else
    let best := bestOf odds1 odds2
    let impliedProbHome := F64.div64 (F64.fin 1) best.bestHomeOdds
    let impliedProbAway := F64.div64 (F64.fin 1) best.bestAwayOdds
    let totalImpliedProb := F64.add64 impliedProbHome impliedProbAway
    if F64.ge totalImpliedProb (F64.fin 1) then none
    else
      let profitPercent :=
        F64.mul64 (F64.sub64 (F64.div64 (F64.fin 1) totalImpliedProb) (F64.fin 1)) (F64.fin 100)
      if F64.lt profitPercent c.minProfit then none
      else
        let totalStake := F64.fin 1000
        let homeStake := F64.div64 (F64.mul64 totalStake impliedProbHome) totalImpliedProb
        let awayStake := F64.div64 (F64.mul64 totalStake impliedProbAway) totalImpliedProb
        let expectedReturn :=
          F64.mul64 totalStake (F64.add64 (F64.fin 1) (F64.div64 profitPercent (F64.fin 100)))
        some
          { ID := env.uuid
            EventID := odds1.EventID
            Sport := odds1.Sport
            HomeTeam := odds1.HomeTeam
            AwayTeam := odds1.AwayTeam
            BookmakerHome := best.bestHomeBookmaker
            BookmakerAway := best.bestAwayBookmaker
            HomeOdds := best.bestHomeOdds
            AwayOdds := best.bestAwayOdds
            ProfitPercent := profitPercent
            HomeStake := homeStake
            AwayStake := awayStake
            TotalStake := totalStake
            ExpectedReturn := expectedReturn
            CreatedAt := env.createdNow
            ExpiresAt := env.expiresNow + fiveMinutes
            Status := "active" }

/-- Go `fmt.Sprintf("%.0f", x)`: the sign of a negative value, then the decimal
digits of the magnitude rounded to an integer; the special values print as
`+Inf`, `-Inf` and `NaN`. -/
def sprintf0 : F64 → String
  | F64.fin q => (if q < 0 then "-" else "") ++ Nat.repr (roundHalfEven |q|).toNat
  | F64.posInf => "+Inf"
  | F64.negInf => "-Inf"
  | F64.nan => "NaN"

/-- `FormatOdds`: decimal odds to American format, on `float64` operations. -/
def FormatOdds (decimal : F64) : String :=
  if F64.ge decimal (F64.fin 2) then
    let american := F64.mul64 (F64.sub64 decimal (F64.fin 1)) (F64.fin 100)
    "+" ++ sprintf0 american
  else
    let american := F64.div64 (F64.fin (-100)) (F64.sub64 decimal (F64.fin 1))
    sprintf0 american

/-! ## detector/main.go: the odds cache -/

/-- The map `oddsCache`, from cache key to the cached quote: a finite map with
distinct keys, whose entries are ranged over in some order. -/
abbrev Cache := AList (fun _ : String => OddsUpdate)

/-- The key `fmt.Sprintf("%s:%s", EventID, Bookmaker)`. -/
def cacheKey (odds : OddsUpdate) : String := odds.EventID ++ ":" ++ odds.Bookmaker

/-- Go `strings.HasPrefix s p`. -/
def HasPrefix (s p : String) : Bool := p.data.isPrefixOf s.data

/-- One second, in nanoseconds. -/
def second : Int := 1000000000

/-- Largest `time.Duration`. -/
def maxDuration : Int := 2 ^ 63 - 1

/-- Smallest `time.Duration`. -/
def minDuration : Int := -(2 ^ 63)

/-- Go `t.Sub(u)`: the difference, saturated to the range of a `Duration`. -/
def Sub (t u : Int) : Int :=
  if minDuration ≤ t - u ∧ t - u ≤ maxDuration then t - u
  else if t < u then minDuration
  else maxDuration

/-- The body of the loop of `processOdds` for one cache entry: the opportunity
handed to `producer.Send` and `storeArbitrage`, if any.  `clock key` is the
reading of `time.Now()` inside `time.Since` and `env key` is what
`DetectArbitrage` reads from outside while this entry is visited. -/
def scanEntry (calculator : Calculator) (clock : String → Int) (env : String → Env)
    (newOdds : OddsUpdate) (entry : (_ : String) × OddsUpdate) : Option ArbitrageOpportunity :=
  let key := entry.1
  let cachedOdds := entry.2
  if !HasPrefix key (newOdds.EventID ++ ":") || key == cacheKey newOdds then none
  else if Sub (clock key) cachedOdds.Timestamp > 30 * second then none
  else DetectArbitrage calculator (env key) newOdds cachedOdds

/-- `Detector.processOdds`: the cache after the update, and the opportunities
emitted, in the order the map is ranged over. -/
def processOdds (calculator : Calculator) (clock : String → Int) (env : String → Env)
    (oddsCache : Cache) (newOdds : OddsUpdate) : Cache × List ArbitrageOpportunity :=
  let oddsCache1 := oddsCache.insert (cacheKey newOdds) newOdds
  (oddsCache1, oddsCache1.entries.filterMap (scanEntry calculator clock env newOdds))

/-- One tick of `Detector.cleanupOldOdds`: range over the map and delete the
keys of the entries older than 60 seconds at `now`. -/
def cleanupSweep (now : Int) (oddsCache : Cache) : Cache :=
  oddsCache.entries.foldl
    (fun m entry => if Sub now entry.2.Timestamp > 60 * second then m.erase entry.1 else m)
    oddsCache

/-! ## Auxiliary definitions for the statements and proofs -/

/-- The update of one leg of the loop: keep the best odds seen and who offered them. -/
def pick (best x : F64 × String) : F64 × String :=
  if F64.gt x.1 best.1 then x else best

/-- The odds component of `pick`. -/
def pickOdds (best x : F64) : F64 := if F64.gt x best then x else best

/-- Who the loop records for a leg offered first at `a` by `s`, then at `b` by `t`. -/
def legName (a b : ℚ) (s t : String) : String :=
  if 0 < a then (if a < b then t else s) else if 0 < b then t else ""

/-- The opportunity `DetectArbitrage` builds from finite best odds `h` and `w`. -/
def mkOpp (env : Env) (odds1 : OddsUpdate) (bh bw : String) (h w : ℚ) : ArbitrageOpportunity :=
  { ID := env.uuid
    EventID := odds1.EventID
    Sport := odds1.Sport
    HomeTeam := odds1.HomeTeam
    AwayTeam := odds1.AwayTeam
    BookmakerHome := bh
    BookmakerAway := bw
    HomeOdds := F64.fin h
    AwayOdds := F64.fin w
    ProfitPercent := F64.fin ((1 / (1 / h + 1 / w) - 1) * 100)
    HomeStake := F64.fin (1000 * (1 / h) / (1 / h + 1 / w))
    AwayStake := F64.fin (1000 * (1 / w) / (1 / h + 1 / w))
    TotalStake := F64.fin 1000
    ExpectedReturn := F64.fin (1000 * (1 + (1 / (1 / h + 1 / w) - 1) * 100 / 100))
    CreatedAt := env.createdNow
    ExpiresAt := env.expiresNow + fiveMinutes
    Status := "active" }

/-- The numeric content of an opportunity. -/
def numbers (o : ArbitrageOpportunity) : F64 × F64 × F64 × F64 × F64 × F64 × F64 :=
  (o.HomeOdds, o.AwayOdds, o.ProfitPercent, o.HomeStake, o.AwayStake, o.TotalStake,
    o.ExpectedReturn)

/-- A quote of bookmaker `bookmaker` on event `event` with finite odds. -/
def quote (event bookmaker : String) (home away : ℚ) (timestamp : Int) : OddsUpdate :=
  { ID := "", EventID := event, Sport := "", HomeTeam := "", AwayTeam := "",
    Bookmaker := bookmaker, HomeOdds := F64.fin home, AwayOdds := F64.fin away,
    DrawOdds := F64.fin 0, Timestamp := timestamp, MarketType := "moneyline" }

/-- Some outside readings for a call of `DetectArbitrage`. -/
def env0 : Env := { uuid := "u", createdNow := 0, expiresNow := 0 }

/-- The calculator of `NewDetector`: 0.5% minimum profit. -/
def calcHalf : Calculator := NewCalculator (F64.fin (1 / 2))

/-- Quote X of the worked example: home 2.10, away 2.05. -/
def quoteX : OddsUpdate := quote "e" "X" (21 / 10) (41 / 20) 0

/-- Quote Y of the worked example: home 1.95, away 2.20. -/
def quoteY : OddsUpdate := quote "e" "Y" (39 / 20) (11 / 5) 0

/-- The opportunity of the worked example: home leg from X, away leg from Y. -/
def oppXY : ArbitrageOpportunity := mkOpp env0 quoteX "X" "Y" (21 / 10) (11 / 5)

/-- A cache for quote X to be scanned against, each entry under its own key: quote Y,
an older quote of bookmaker X itself, a quote of the same event that is 40 seconds
old at time `10 * second`, and a quote of event `e:1`, whose key starts with `e:`. -/
def cacheXY : Cache :=
  ((((∅ : Cache).insert (cacheKey quoteY) quoteY).insert
      (cacheKey (quote "e" "X" 3 3 0)) (quote "e" "X" 3 3 0)).insert
      (cacheKey (quote "e" "Z" 3 3 (-30 * second))) (quote "e" "Z" 3 3 (-30 * second))).insert
    (cacheKey (quote "e:1" "Y" 3 3 0)) (quote "e:1" "Y" 3 3 0)

/-- The value `x` agrees with the printed value `v` up to half a unit `half` of the
last printed digit. -/
def agreesTo (x v half : ℚ) : Prop := v - half ≤ x ∧ x ≤ v + half

/-- The worked example on quotes X and Y with the 0.5% threshold: an opportunity is
returned with home leg 2.10 from X and away leg 2.20 from Y, total implied
probability `total` to four decimals, profit `profit` to two decimals, stakes `home`
and `away` to the nearest unit, and stakes that add up to 1000. -/
def workedExample (total profit home away : ℚ) : Prop :=
  ∃ (opp : ArbitrageOpportunity) (p s1 s2 : ℚ),
    DetectArbitrage calcHalf env0 quoteX quoteY = some opp
    ∧ opp.HomeOdds = F64.fin (21 / 10) ∧ opp.BookmakerHome = "X"
    ∧ opp.AwayOdds = F64.fin (11 / 5) ∧ opp.BookmakerAway = "Y"
    ∧ opp.ProfitPercent = F64.fin p ∧ opp.HomeStake = F64.fin s1 ∧ opp.AwayStake = F64.fin s2
    ∧ agreesTo (1 / (21 / 10) + 1 / (11 / 5)) total (1 / 20000)
    ∧ agreesTo p profit (1 / 200)
    ∧ agreesTo s1 home (1 / 2) ∧ agreesTo s2 away (1 / 2)
    ∧ s1 + s2 = 1000

/-- The cache slot of the pair `(event, source)`: the entry under the key the
detector builds for that pair. -/
def entryFor (oddsCache : Cache) (event source : String) : Option OddsUpdate :=
  oddsCache.lookup (event ++ ":" ++ source)

/-- A cached quote of event `a` from the bookmaker named `b:c`. -/
def quoteColonSource : OddsUpdate := quote "a" "b:c" 2 2 0

/-- A new quote of event `a:b` from bookmaker `c`. -/
def quoteColonEvent : OddsUpdate := quote "a:b" "c" 3 3 1

/-- The cache that holds only the quote of event `a` from bookmaker `b:c`. -/
def cacheColon : Cache := (∅ : Cache).insert (cacheKey quoteColonSource) quoteColonSource

/-- The total implied probability of best odds `h` and `w`, as the code computes it
on `float64`: `1/h + 1/w`, each operation rounded. -/
def total64 (h w : F64) : F64 :=
  F64.add64 (F64.div64 (F64.fin 1) h) (F64.div64 (F64.fin 1) w)

/-- The profit percentage of a total implied probability, as the code computes it on
`float64`: `(1/total - 1) * 100`, each operation rounded. -/
def profit64 (total : F64) : F64 :=
  F64.mul64 (F64.sub64 (F64.div64 (F64.fin 1) total) (F64.fin 1)) (F64.fin 100)

/-- The double nearest to 1.90. -/
def double190 : ℚ := 4278419646001971 / 2251799813685248

/-- The double nearest to 1.6666666666666667. -/
def doubleFiveThirds : ℚ := 7505999378950827 / 4503599627370496

/-- Two quotes of one event, both priced home 2.5 and away 1.6666666666666667. -/
def quoteEdgeX : OddsUpdate := quote "e" "X" (5 / 2) doubleFiveThirds 0

/-- The second quote priced home 2.5 and away 1.6666666666666667. -/
def quoteEdgeY : OddsUpdate := quote "e" "Y" (5 / 2) doubleFiveThirds 0

/-- A calculator with minimum profit 0. -/
def calcZero : Calculator := NewCalculator (F64.fin 0)

/-- Two quotes of one event, both priced home and away at the double `2 ^ 1023`. -/
def quoteHugeX : OddsUpdate := quote "e" "X" (2 ^ 1023) (2 ^ 1023) 0

/-- The second quote priced at `2 ^ 1023`. -/
def quoteHugeY : OddsUpdate := quote "e" "Y" (2 ^ 1023) (2 ^ 1023) 0

/-- The rational `q` is the exact value of a finite `float64`: rounding it gives it
back. -/
def isDouble (q : ℚ) : Prop := F64.round (F64.fin q) = F64.fin q

/-- The double `2 ^ 47 + 1.25`. -/
def bigDecimal : ℚ := 2 ^ 47 + 5 / 4

/-! ## The loop over the combinations -/

open F64

theorem step_home (b : Best) (combo : Combo) :
    ((b.step combo).bestHomeOdds, (b.step combo).bestHomeBookmaker)
      = pick (b.bestHomeOdds, b.bestHomeBookmaker) (combo.homeOdds, combo.homeBookmaker) := by
  unfold Best.step pick
  by_cases h1 : F64.gt combo.homeOdds b.bestHomeOdds = true <;>
    by_cases h2 : F64.gt combo.awayOdds b.bestAwayOdds = true <;> simp [h1, h2]

theorem step_away (b : Best) (combo : Combo) :
    ((b.step combo).bestAwayOdds, (b.step combo).bestAwayBookmaker)
      = pick (b.bestAwayOdds, b.bestAwayBookmaker) (combo.awayOdds, combo.awayBookmaker) := by
  unfold Best.step pick
  by_cases h1 : F64.gt combo.homeOdds b.bestHomeOdds = true <;>
    by_cases h2 : F64.gt combo.awayOdds b.bestAwayOdds = true <;> simp [h1, h2]

theorem bestOf_home (o1 o2 : OddsUpdate) :
    ((bestOf o1 o2).bestHomeOdds, (bestOf o1 o2).bestHomeBookmaker)
      = pick (pick (pick (pick (fin 0, "") (o1.HomeOdds, o1.Bookmaker))
          (o2.HomeOdds, o2.Bookmaker)) (o1.HomeOdds, o1.Bookmaker)) (o2.HomeOdds, o2.Bookmaker) := by
  simp only [bestOf, combinations, List.foldl, step_home]
  rfl

theorem bestOf_away (o1 o2 : OddsUpdate) :
    ((bestOf o1 o2).bestAwayOdds, (bestOf o1 o2).bestAwayBookmaker)
      = pick (pick (pick (pick (fin 0, "") (o2.AwayOdds, o2.Bookmaker))
          (o1.AwayOdds, o1.Bookmaker)) (o1.AwayOdds, o1.Bookmaker)) (o2.AwayOdds, o2.Bookmaker) := by
  simp only [bestOf, combinations, List.foldl, step_away]
  rfl

theorem pick_fin (x y : ℚ) (s t : String) :
    pick (fin x, s) (fin y, t) = if x < y then (fin y, t) else (fin x, s) := by
  simp [pick, F64.gt, F64.lt]

theorem pick4_fin (a b : ℚ) (s t : String) :
    pick (pick (pick (pick (fin 0, "") (fin a, s)) (fin b, t)) (fin a, s)) (fin b, t)
      = (fin (max 0 (max a b)), legName a b s t)
    ∧ pick (pick (pick (pick (fin 0, "") (fin a, s)) (fin b, t)) (fin b, t)) (fin a, s)
      = (fin (max 0 (max a b)), legName a b s t) := by
  unfold legName
  rcases le_or_lt a 0 with h1 | h1 <;> rcases le_or_lt b 0 with h3 | h3 <;>
    rcases le_or_lt b a with h2 | h2 <;>
    simp [pick_fin, h1, h2, h3, not_lt.mpr, max_eq_left, max_eq_right, le_of_lt,
      lt_irrefl, lt_asymm] <;> (exfalso; linarith)


theorem bestOf_fin (o1 o2 : OddsUpdate) (a b c d : ℚ)
    (h1 : o1.HomeOdds = fin a) (h2 : o2.HomeOdds = fin b)
    (h3 : o1.AwayOdds = fin c) (h4 : o2.AwayOdds = fin d) :
    bestOf o1 o2 =
      { bestHomeOdds := fin (max 0 (max a b))
        bestAwayOdds := fin (max 0 (max d c))
        bestHomeBookmaker := legName a b o1.Bookmaker o2.Bookmaker
        bestAwayBookmaker := legName d c o2.Bookmaker o1.Bookmaker } := by
  have hh := bestOf_home o1 o2
  have ha := bestOf_away o1 o2
  rw [h1, h2, (pick4_fin a b _ _).1] at hh
  rw [h3, h4, (pick4_fin d c _ _).2] at ha
  rw [Prod.mk.injEq] at hh ha
  cases hb : bestOf o1 o2
  rw [hb] at hh ha
  simp only at hh ha
  simp [hh.1, hh.2, ha.1, ha.2]

theorem add_fin (x y : ℚ) : F64.add (fin x) (fin y) = fin (x + y) := rfl

theorem sub_fin (x y : ℚ) : F64.sub (fin x) (fin y) = fin (x - y) := by
  simp [F64.sub, F64.neg, F64.add, sub_eq_add_neg]

theorem mul_fin (x y : ℚ) : F64.mul (fin x) (fin y) = fin (x * y) := rfl

theorem ge_fin (x y : ℚ) : F64.ge (fin x) (fin y) = decide (y ≤ x) := rfl

theorem div_fin_of_ne (x y : ℚ) (hy : y ≠ 0) : F64.div (fin x) (fin y) = fin (x / y) := by
  simp [F64.div, hy]

theorem div_one_zero : F64.div (fin 1) (fin 0) = posInf := by
  simp [F64.div, F64.infOfSign]

theorem posInf_add_div_one (x : ℚ) : F64.add posInf (F64.div (fin 1) (fin x)) = posInf := by
  by_cases hx : x = 0
  · subst hx; rw [div_one_zero]; rfl
  · rw [div_fin_of_ne _ _ hx]; rfl

theorem DetectArbitrage_fin (cal : Calculator) (env : Env) (o1 o2 : OddsUpdate) (a b c d : ℚ)
    (h1 : o1.HomeOdds = fin a) (h2 : o2.HomeOdds = fin b)
    (h3 : o1.AwayOdds = fin c) (h4 : o2.AwayOdds = fin d) :
    DetectArbitrage cal env o1 o2 =
      if o1.EventID ≠ o2.EventID then none
      else if max a b ≤ 0 ∨ max c d ≤ 0 then none
      else if 1 ≤ 1 / max a b + 1 / max c d then none
      else if F64.lt (fin ((1 / (1 / max a b + 1 / max c d) - 1) * 100)) cal.minProfit then none
      else some (mkOpp env o1 (legName a b o1.Bookmaker o2.Bookmaker)
        (legName d c o2.Bookmaker o1.Bookmaker) (max a b) (max c d)) := by
  unfold DetectArbitrage
  simp only [bestOf_fin o1 o2 a b c d h1 h2 h3 h4]
  by_cases he : o1.EventID ≠ o2.EventID
  · simp [he]
  · rw [if_neg he, if_neg he, max_comm d c]
    by_cases hH : max a b ≤ 0
    · rw [max_eq_left hH, div_one_zero, posInf_add_div_one, if_pos (Or.inl hH)]
      exact if_pos rfl
    · have hH0 : 0 < max a b := not_le.mp hH
      rw [max_eq_right hH0.le, div_fin_of_ne _ _ hH0.ne.symm]
      by_cases hW : max c d ≤ 0
      · rw [max_eq_left hW, div_one_zero, if_pos (Or.inr hW)]
        exact if_pos rfl
      · have hW0 : 0 < max c d := not_le.mp hW
        have ht : 0 < 1 / max a b + 1 / max c d := by positivity
        rw [max_eq_right hW0.le, div_fin_of_ne _ _ hW0.ne.symm, add_fin, ge_fin,
          if_neg (not_or.mpr ⟨hH, hW⟩), div_fin_of_ne _ _ ht.ne.symm, sub_fin, mul_fin,
          mul_fin, mul_fin, div_fin_of_ne _ _ ht.ne.symm, div_fin_of_ne _ _ ht.ne.symm,
          div_fin_of_ne _ 100 (by norm_num), add_fin, mul_fin]
        simp only [decide_eq_true_eq, mkOpp]


theorem lt_fin (x y : ℚ) : F64.lt (fin x) (fin y) = decide (x < y) := rfl

theorem gt_fin (x y : ℚ) : F64.gt (fin x) (fin y) = decide (y < x) := rfl

/-- What a returned opportunity is, for finite odds. -/
theorem DetectArbitrage_some_fin (cal : Calculator) (env : Env) (o1 o2 : OddsUpdate)
    (a b c d : ℚ) (h1 : o1.HomeOdds = fin a) (h2 : o2.HomeOdds = fin b)
    (h3 : o1.AwayOdds = fin c) (h4 : o2.AwayOdds = fin d) (opp : ArbitrageOpportunity)
    (h : DetectArbitrage cal env o1 o2 = some opp) :
    0 < max a b ∧ 0 < max c d ∧ 1 / max a b + 1 / max c d < 1 ∧
      F64.lt (fin ((1 / (1 / max a b + 1 / max c d) - 1) * 100)) cal.minProfit = false ∧
      opp = mkOpp env o1 (legName a b o1.Bookmaker o2.Bookmaker)
        (legName d c o2.Bookmaker o1.Bookmaker) (max a b) (max c d) := by
  rw [DetectArbitrage_fin cal env o1 o2 a b c d h1 h2 h3 h4] at h
  split_ifs at h with e1 e2 e3 e4
  rw [not_or] at e2
  refine ⟨not_le.mp e2.1, not_le.mp e2.2, not_le.mp e3, by simpa using e4, ?_⟩
  exact (Option.some.inj h).symm

theorem legName_spec (a b : ℚ) (s t : String) (h : 0 < max a b) :
    (legName a b s t = s ∧ a = max a b) ∨ (legName a b s t = t ∧ b = max a b) := by
  unfold legName
  rcases le_or_lt a 0 with h1 | h1 <;> rcases le_or_lt b a with h2 | h2
  · exact absurd h (not_lt.mpr (max_le h1 (h2.trans h1)))
  · have hb : 0 < b := by rwa [max_eq_right h2.le] at h
    right; simp [not_lt.mpr h1, hb, max_eq_right h2.le]
  · left; simp [h1, not_lt.mpr h2, max_eq_left h2]
  · right; simp [h1, h2, max_eq_right h2.le]


theorem max_XY : max (21 / 10 : ℚ) (39 / 20) = 21 / 10 ∧ max (41 / 20 : ℚ) (11 / 5) = 11 / 5 := by
  constructor
  · exact max_eq_left (by norm_num)
  · exact max_eq_right (by norm_num)

theorem detect_XY : DetectArbitrage calcHalf env0 quoteX quoteY = some oppXY := by
  rw [DetectArbitrage_fin calcHalf env0 quoteX quoteY (21 / 10) (39 / 20) (41 / 20) (11 / 5)
    rfl rfl rfl rfl, max_XY.1, max_XY.2]
  have e : quoteX.EventID = quoteY.EventID := rfl
  rw [if_neg (not_not.mpr e), if_neg (by norm_num), if_neg (by norm_num)]
  have hl : F64.lt (fin ((1 / (1 / (21 / 10 : ℚ) + 1 / (11 / 5)) - 1) * 100)) calcHalf.minProfit
      = false := by
    show decide (_ < (1 / 2 : ℚ)) = false
    rw [decide_eq_false_iff_not]
    norm_num
  rw [hl, if_neg (by simp)]
  have n1 : legName (21 / 10) (39 / 20) quoteX.Bookmaker quoteY.Bookmaker = "X" := by
    unfold legName
    rw [if_pos (by norm_num), if_neg (by norm_num)]
    rfl
  have n2 : legName (11 / 5) (41 / 20) quoteY.Bookmaker quoteX.Bookmaker = "Y" := by
    unfold legName
    rw [if_pos (by norm_num), if_neg (by norm_num)]
    rfl
  rw [n1, n2]
  rfl

/-! ## The calculator -/

/-- C2: for finite odds, a returned opportunity carries the maximum of the two home
odds and the maximum of the two away odds, and each bookmaker label is the
bookmaker of an input quote that offers exactly the returned odds of that leg. -/
theorem C2_best_odds_and_bookmakers (cal : Calculator) (env : Env) (A B : OddsUpdate)
    (ah aw bh bw : ℚ) (hAh : A.HomeOdds = fin ah) (hAw : A.AwayOdds = fin aw)
    (hBh : B.HomeOdds = fin bh) (hBw : B.AwayOdds = fin bw)
    (opp : ArbitrageOpportunity) (h : DetectArbitrage cal env A B = some opp) :
    opp.HomeOdds = fin (max ah bh) ∧ opp.AwayOdds = fin (max aw bw)
    ∧ ((opp.BookmakerHome = A.Bookmaker ∧ A.HomeOdds = opp.HomeOdds)
        ∨ (opp.BookmakerHome = B.Bookmaker ∧ B.HomeOdds = opp.HomeOdds))
    ∧ ((opp.BookmakerAway = A.Bookmaker ∧ A.AwayOdds = opp.AwayOdds)
        ∨ (opp.BookmakerAway = B.Bookmaker ∧ B.AwayOdds = opp.AwayOdds)) := by
  obtain ⟨hH, hW, -, -, rfl⟩ :=
    DetectArbitrage_some_fin cal env A B ah bh aw bw hAh hBh hAw hBw opp h
  refine ⟨rfl, rfl, ?_, ?_⟩
  · rcases legName_spec ah bh A.Bookmaker B.Bookmaker hH with ⟨e1, e2⟩ | ⟨e1, e2⟩
    · left; exact ⟨e1, by rw [hAh]; exact congrArg fin e2⟩
    · right; exact ⟨e1, by rw [hBh]; exact congrArg fin e2⟩
  · rw [max_comm] at hW
    rcases legName_spec bw aw B.Bookmaker A.Bookmaker hW with ⟨e1, e2⟩ | ⟨e1, e2⟩
    · right; exact ⟨e1, by rw [hBw]; exact congrArg fin (by rw [max_comm]; exact e2)⟩
    · left; exact ⟨e1, by rw [hAw]; exact congrArg fin (by rw [max_comm]; exact e2)⟩


/-- C2 at the quotes X and Y: the home leg is X at 2.10, the away leg is Y at 2.20. -/
theorem C2_best_odds_and_bookmakers_witness :
    oppXY.HomeOdds = fin (max (21 / 10) (39 / 20)) ∧ oppXY.AwayOdds = fin (max (41 / 20) (11 / 5))
    ∧ ((oppXY.BookmakerHome = quoteX.Bookmaker ∧ quoteX.HomeOdds = oppXY.HomeOdds)
        ∨ (oppXY.BookmakerHome = quoteY.Bookmaker ∧ quoteY.HomeOdds = oppXY.HomeOdds))
    ∧ ((oppXY.BookmakerAway = quoteX.Bookmaker ∧ quoteX.AwayOdds = oppXY.AwayOdds)
        ∨ (oppXY.BookmakerAway = quoteY.Bookmaker ∧ quoteY.AwayOdds = oppXY.AwayOdds)) :=
  C2_best_odds_and_bookmakers calcHalf env0 quoteX quoteY (21 / 10) (41 / 20) (39 / 20) (11 / 5)
    rfl rfl rfl rfl oppXY detect_XY

theorem DetectArbitrage_of_ne (cal : Calculator) (env : Env) (A B : OddsUpdate)
    (h : A.EventID ≠ B.EventID) : DetectArbitrage cal env A B = none := by
  unfold DetectArbitrage
  rw [if_pos h]

/-- C3: quotes of different events never give an opportunity, whatever the odds
(finite or not) and whatever the threshold; the function is total, so it never
fails. -/
theorem C3_different_events_none (cal : Calculator) (env : Env) (A B : OddsUpdate)
    (h : A.EventID ≠ B.EventID) : DetectArbitrage cal env A B = none := by
  unfold DetectArbitrage
  rw [if_pos h]

/-- C3 at the odds of X and Y, which qualify on one event, put on two events. -/
theorem C3_different_events_none_witness :
    (DetectArbitrage calcHalf env0 quoteX quoteY).isSome = true
    ∧ DetectArbitrage calcHalf env0 quoteX (quote "f" "Y" (39 / 20) (11 / 5) 0) = none :=
  ⟨by rw [detect_XY]; rfl,
    C3_different_events_none calcHalf env0 quoteX (quote "f" "Y" (39 / 20) (11 / 5) 0)
      (by decide)⟩

/-- C5: for finite odds, the stakes of a returned opportunity add up to
`TotalStake = 1000`, each stake is `TotalStake * (1/odds) / total` with
`total = 1/HomeOdds + 1/AwayOdds`, and both stakes are strictly positive. -/
theorem C5_stakes_sum_to_total (cal : Calculator) (env : Env) (A B : OddsUpdate)
    (ah aw bh bw : ℚ) (hAh : A.HomeOdds = fin ah) (hAw : A.AwayOdds = fin aw)
    (hBh : B.HomeOdds = fin bh) (hBw : B.AwayOdds = fin bw)
    (opp : ArbitrageOpportunity) (h : DetectArbitrage cal env A B = some opp) :
    F64.add opp.HomeStake opp.AwayStake = opp.TotalStake
    ∧ opp.TotalStake = fin 1000
    ∧ opp.HomeStake = F64.div (F64.mul opp.TotalStake (F64.div (fin 1) opp.HomeOdds))
        (F64.add (F64.div (fin 1) opp.HomeOdds) (F64.div (fin 1) opp.AwayOdds))
    ∧ opp.AwayStake = F64.div (F64.mul opp.TotalStake (F64.div (fin 1) opp.AwayOdds))
        (F64.add (F64.div (fin 1) opp.HomeOdds) (F64.div (fin 1) opp.AwayOdds))
    ∧ F64.gt opp.HomeStake (fin 0) = true ∧ F64.gt opp.AwayStake (fin 0) = true := by
  obtain ⟨hH, hW, -, -, rfl⟩ :=
    DetectArbitrage_some_fin cal env A B ah bh aw bw hAh hBh hAw hBw opp h
  have ht : 0 < 1 / max ah bh + 1 / max aw bw := by positivity
  simp only [mkOpp, div_fin_of_ne _ _ hH.ne.symm, div_fin_of_ne _ _ hW.ne.symm, add_fin,
    mul_fin, div_fin_of_ne _ _ ht.ne.symm, gt_fin, decide_eq_true_eq, true_and]
  refine ⟨?_, ?_, ?_⟩
  · congr 1
    field_simp
    ring
  · positivity
  · positivity

/-- C5 at the quotes X and Y. -/
theorem C5_stakes_sum_to_total_witness :
    F64.add oppXY.HomeStake oppXY.AwayStake = oppXY.TotalStake ∧ oppXY.TotalStake = fin 1000 :=
  let h := C5_stakes_sum_to_total calcHalf env0 quoteX quoteY (21 / 10) (41 / 20) (39 / 20)
    (11 / 5) rfl rfl rfl rfl oppXY detect_XY
  ⟨h.1, h.2.1⟩

/-- C6: for finite odds, a returned opportunity pays the same whichever side wins,
`HomeStake * HomeOdds = AwayStake * AwayOdds = ExpectedReturn
= TotalStake * (1 + ProfitPercent/100)`, and `ExpectedReturn > TotalStake`. -/
theorem C6_equal_payout_and_profit (cal : Calculator) (env : Env) (A B : OddsUpdate)
    (ah aw bh bw : ℚ) (hAh : A.HomeOdds = fin ah) (hAw : A.AwayOdds = fin aw)
    (hBh : B.HomeOdds = fin bh) (hBw : B.AwayOdds = fin bw)
    (opp : ArbitrageOpportunity) (h : DetectArbitrage cal env A B = some opp) :
    F64.mul opp.HomeStake opp.HomeOdds = opp.ExpectedReturn
    ∧ F64.mul opp.AwayStake opp.AwayOdds = opp.ExpectedReturn
    ∧ opp.ExpectedReturn
        = F64.mul opp.TotalStake (F64.add (fin 1) (F64.div opp.ProfitPercent (fin 100)))
    ∧ F64.gt opp.ExpectedReturn opp.TotalStake = true := by
  obtain ⟨hH, hW, ht1, -, rfl⟩ :=
    DetectArbitrage_some_fin cal env A B ah bh aw bw hAh hBh hAw hBw opp h
  have ht : 0 < 1 / max ah bh + 1 / max aw bw := by positivity
  simp only [mkOpp, add_fin, mul_fin, div_fin_of_ne _ (100 : ℚ) (by norm_num), gt_fin,
    decide_eq_true_eq, true_and]
  refine ⟨?_, ?_, ?_⟩
  · congr 1
    field_simp
    ring
  · congr 1
    field_simp
    ring
  · have : 1 < 1 / (1 / max ah bh + 1 / max aw bw) := by
      rw [lt_div_iff₀ ht, one_mul]; exact ht1
    linarith

/-- C6 at the quotes X and Y. -/
theorem C6_equal_payout_and_profit_witness :
    F64.mul oppXY.HomeStake oppXY.HomeOdds = oppXY.ExpectedReturn
    ∧ F64.mul oppXY.AwayStake oppXY.AwayOdds = oppXY.ExpectedReturn :=
  let h := C6_equal_payout_and_profit calcHalf env0 quoteX quoteY (21 / 10) (41 / 20) (39 / 20)
    (11 / 5) rfl rfl rfl rfl oppXY detect_XY
  ⟨h.1, h.2.1⟩

theorem pick_fst (p q : F64 × String) : (pick p q).1 = pickOdds p.1 q.1 := by
  unfold pick pickOdds
  split_ifs <;> rfl

theorem pickOdds_fin_fin (x y : ℚ) : pickOdds (fin x) (fin y) = fin (max x y) := by
  unfold pickOdds
  rw [gt_fin]
  by_cases h : x < y
  · simp [h, max_eq_right h.le]
  · simp [h, max_eq_left (not_lt.mp h)]

theorem pickOdds_fin_posInf (x : ℚ) : pickOdds (fin x) posInf = posInf := rfl

theorem pickOdds_fin_negInf (x : ℚ) : pickOdds (fin x) negInf = fin x := rfl

theorem pickOdds_posInf (y : F64) : pickOdds posInf y = posInf := by
  cases y <;> rfl

theorem pickOdds_nan (v : F64) : pickOdds v nan = v := by
  cases v <;> rfl

theorem pick4_fst_comm (a b : F64) (s t s2 t2 : String) :
    (pick (pick (pick (pick (fin 0, "") (a, s)) (b, t)) (a, s)) (b, t)).1
      = (pick (pick (pick (pick (fin 0, "") (b, t2)) (a, s2)) (b, t2)) (a, s2)).1
    ∧ (pick (pick (pick (pick (fin 0, "") (a, s)) (b, t)) (b, t)) (a, s)).1
      = (pick (pick (pick (pick (fin 0, "") (b, t2)) (a, s2)) (a, s2)) (b, t2)).1 := by
  simp only [pick_fst]
  rcases a with x | _ | _ | _ <;> rcases b with y | _ | _ | _ <;>
    simp only [pickOdds_fin_fin, pickOdds_fin_posInf, pickOdds_fin_negInf, pickOdds_posInf,
      pickOdds_nan, and_self, max_assoc, max_self, max_eq_right (le_max_right _ _)]
  exact ⟨by rw [max_comm x y], by rw [max_comm x y]⟩

theorem bestOf_odds_comm (A B : OddsUpdate) :
    (bestOf A B).bestHomeOdds = (bestOf B A).bestHomeOdds
    ∧ (bestOf A B).bestAwayOdds = (bestOf B A).bestAwayOdds := by
  have h1 := congrArg Prod.fst (bestOf_home A B)
  have h2 := congrArg Prod.fst (bestOf_home B A)
  have h3 := congrArg Prod.fst (bestOf_away A B)
  have h4 := congrArg Prod.fst (bestOf_away B A)
  simp only at h1 h2 h3 h4
  rw [h1, h2, h3, h4]
  exact ⟨(pick4_fst_comm _ _ _ _ _ _).1, (pick4_fst_comm _ _ _ _ _ _).2⟩

/-- The numbers of the result depend on the two quotes only through the best odds. -/
theorem DetectArbitrage_numbers_comm (cal : Calculator) (env1 env2 : Env) (A B : OddsUpdate) :
    (DetectArbitrage cal env1 A B).map numbers = (DetectArbitrage cal env2 B A).map numbers := by
  simp only [DetectArbitrage, (bestOf_odds_comm A B).1, (bestOf_odds_comm A B).2]
  by_cases he : A.EventID = B.EventID
  · rw [if_neg (not_not.mpr he), if_neg (not_not.mpr he.symm)]
    split_ifs <;> rfl
  · rw [if_pos he, if_pos (Ne.symm he)]

/-- C7: swapping the two quotes does not change whether an opportunity is returned,
and when both calls return one, the odds, profit, stakes and expected return are
identical (for all odds values, finite or not, and every threshold). -/
theorem C7_swap_same_content (cal : Calculator) (env1 env2 : Env) (A B : OddsUpdate) :
    ((DetectArbitrage cal env1 A B).isSome = true ↔ (DetectArbitrage cal env2 B A).isSome = true)
    ∧ (∀ x y, DetectArbitrage cal env1 A B = some x → DetectArbitrage cal env2 B A = some y →
        x.HomeOdds = y.HomeOdds ∧ x.AwayOdds = y.AwayOdds ∧ x.ProfitPercent = y.ProfitPercent
        ∧ x.HomeStake = y.HomeStake ∧ x.AwayStake = y.AwayStake ∧ x.TotalStake = y.TotalStake
        ∧ x.ExpectedReturn = y.ExpectedReturn) := by
  have key := DetectArbitrage_numbers_comm cal env1 env2 A B
  constructor
  · have := congrArg Option.isSome key
    simp only [Option.isSome_map'] at this
    rw [this]
  · intro x y hx hy
    rw [hx, hy] at key
    have e : numbers x = numbers y := Option.some.inj key
    simp only [numbers, Prod.mk.injEq] at e
    exact e

theorem workedExample_values :
    oppXY.ProfitPercent = fin (320 / 43) ∧ oppXY.HomeStake = fin (22000 / 43)
    ∧ oppXY.AwayStake = fin (21000 / 43) := by
  refine ⟨?_, ?_, ?_⟩ <;> (simp only [oppXY, mkOpp]; congr 1; norm_num)

/-- C8 as stated fails: on quotes X and Y the returned opportunity has total implied
probability 215/231, not 0.9226 to four decimals; its profit 320/43 is not 8.38 to
two decimals, and its stakes 22000/43 and 21000/43 are not 519 and 481 to the
nearest unit. -/
theorem C8_worked_example_counterexample :
    ¬ workedExample (9226 / 10000) (838 / 100) 519 481
    ∧ DetectArbitrage calcHalf env0 quoteX quoteY = some oppXY
    ∧ oppXY.ProfitPercent = fin (320 / 43) ∧ ¬ agreesTo (320 / 43) (838 / 100) (1 / 200)
    ∧ oppXY.HomeStake = fin (22000 / 43) ∧ ¬ agreesTo (22000 / 43) 519 (1 / 2)
    ∧ oppXY.AwayStake = fin (21000 / 43) ∧ ¬ agreesTo (21000 / 43) 481 (1 / 2) := by
  refine ⟨?_, detect_XY, workedExample_values.1, ?_, workedExample_values.2.1, ?_,
    workedExample_values.2.2, ?_⟩
  · rintro ⟨opp, p, s1, s2, -, -, -, -, -, -, -, -, ht, -⟩
    have := ht.2
    norm_num at this
  · intro h
    have := h.1
    norm_num at this
  · intro h
    have := h.1
    norm_num at this
  · intro h
    have := h.2
    norm_num at this

/-- C8 amended: on quotes X and Y with the 0.5% threshold an opportunity is returned
with home leg 2.10 from X and away leg 2.20 from Y, total implied probability 0.9307
to four decimals, profit 7.44 to two decimals, stakes 512 and 488 to the nearest
unit, and stakes that add up to 1000. -/
theorem C8_worked_example_amended :
    workedExample (9307 / 10000) (744 / 100) 512 488 := by
  refine ⟨oppXY, 320 / 43, 22000 / 43, 21000 / 43, detect_XY, rfl, rfl, rfl, rfl,
    workedExample_values.1, workedExample_values.2.1, workedExample_values.2.2, ?_, ?_, ?_, ?_, ?_⟩
  all_goals first | (unfold agreesTo; constructor <;> norm_num) | norm_num


/-! ## The odds cache -/

theorem Sub_gt_iff (t u c : Int) (h1 : minDuration ≤ c) (h2 : c < maxDuration) :
    Sub t u > c ↔ t - u > c := by
  unfold Sub
  split_ifs with ha hb
  · rfl
  · constructor
    · intro h; exact absurd h (not_lt.mpr h1)
    · intro h
      have : minDuration ≤ t - u := le_trans h1 h.le
      rw [not_and_or] at ha
      rcases ha with ha | ha
      · exact absurd this ha
      · unfold minDuration maxDuration at *
        omega
  · constructor
    · intro _
      rw [not_and_or] at ha
      unfold minDuration maxDuration at *
      omega
    · intro _; exact h2

theorem HasPrefix_cacheKey (e b : String) : HasPrefix (e ++ ":" ++ b) (e ++ ":") = true := by
  unfold HasPrefix
  rw [List.isPrefixOf_iff_prefix, String.data_append]
  exact List.prefix_append _ _

theorem cacheKey_eq_iff (o1 o2 : OddsUpdate) (h : o1.EventID = o2.EventID) :
    cacheKey o1 = cacheKey o2 ↔ o1.Bookmaker = o2.Bookmaker := by
  unfold cacheKey
  rw [h]
  constructor
  · intro he
    have := congrArg String.data he
    simp only [String.data_append] at this
    exact String.ext (List.append_cancel_left this)
  · intro he; rw [he]

theorem filterMap_kerase (f : (_ : String) × OddsUpdate → Option ArbitrageOpportunity)
    (k : String) (hf : ∀ v, f ⟨k, v⟩ = none) (l : List ((_ : String) × OddsUpdate)) :
    (l.kerase k).filterMap f = l.filterMap f := by
  induction l with
  | nil => rfl
  | cons e l ih =>
    by_cases h : k = e.1
    · rw [List.kerase_cons_eq h]
      obtain ⟨k2, v⟩ := e
      simp only at h
      subst h
      rw [List.filterMap_cons, hf v]
    · rw [List.kerase_cons_ne h, List.filterMap_cons, List.filterMap_cons, ih]


theorem scanEntry_self (cal : Calculator) (clock : String → Int) (env : String → Env)
    (q v : OddsUpdate) : scanEntry cal clock env q ⟨cacheKey q, v⟩ = none := by
  simp [scanEntry]

/-- The loop body on an entry stored under its own key. -/
theorem scanEntry_own_key (cal : Calculator) (now : Int) (env : String → Env)
    (q v : OddsUpdate) :
    scanEntry cal (fun _ => now) env q ⟨cacheKey v, v⟩ =
      if v.EventID = q.EventID ∧ v.Bookmaker ≠ q.Bookmaker ∧ now - v.Timestamp ≤ 30 * second
      then DetectArbitrage cal (env (cacheKey v)) q v else none := by
  have hs : Sub now v.Timestamp > 30 * second ↔ now - v.Timestamp > 30 * second :=
    Sub_gt_iff _ _ _ (by unfold minDuration second; norm_num)
      (by unfold maxDuration second; norm_num)
  by_cases he : v.EventID = q.EventID
  · have hp : HasPrefix (cacheKey v) (q.EventID ++ ":") = true := by
      rw [← he]; exact HasPrefix_cacheKey _ _
    have hk := cacheKey_eq_iff v q he
    unfold scanEntry
    simp only [hp, Bool.not_true, Bool.false_or, beq_iff_eq, hk, he, true_and, hs]
    by_cases hb : v.Bookmaker = q.Bookmaker
    · rw [if_pos hb, if_neg (fun h => h.1 hb)]
    · rw [if_neg hb]
      by_cases ht : now - v.Timestamp > 30 * second
      · rw [if_pos ht, if_neg (fun h => not_le.mpr ht h.2)]
      · rw [if_neg ht, if_pos ⟨hb, not_lt.mp ht⟩]
  · have hd : DetectArbitrage cal (env (cacheKey v)) q v = none :=
      DetectArbitrage_of_ne cal _ q v (Ne.symm he)
    unfold scanEntry
    simp only [hd, he, false_and, if_false]
    split_ifs <;> rfl

/-- On the example cache only quote Y is paired with quote X. -/
theorem processOdds_cacheXY :
    (processOdds calcHalf (fun _ => 10 * second) (fun _ => env0) cacheXY quoteX).2 = [oppXY] := by
  have h : (processOdds calcHalf (fun _ => 10 * second) (fun _ => env0) cacheXY quoteX).2
      = [none, none, none, DetectArbitrage calcHalf env0 quoteX quoteY].filterMap id := rfl
  rw [h, detect_XY]
  rfl

/-- C9: when every cache entry is stored under the key of its own
(EventID, Bookmaker), the opportunities emitted by `processOdds` for a quote `q`
at time `now` are, as a multiset, the non-nil results of `DetectArbitrage q e` over
the cached entries `e` of the same event, of another bookmaker and at most 30
seconds old. -/
theorem C9_processOdds_emitted (cal : Calculator) (now : Int) (env : String → Env)
    (oddsCache : Cache) (q : OddsUpdate)
    (hkey : ∀ e ∈ oddsCache.entries, e.1 = cacheKey e.2) :
    List.Perm (processOdds cal (fun _ => now) env oddsCache q).2
      (oddsCache.entries.filterMap (fun e =>
        if e.2.EventID = q.EventID ∧ e.2.Bookmaker ≠ q.Bookmaker
            ∧ now - e.2.Timestamp ≤ 30 * second
        then DetectArbitrage cal (env (cacheKey e.2)) q e.2 else none)) := by
  unfold processOdds
  simp only [AList.insert_entries, List.filterMap_cons, scanEntry_self]
  rw [filterMap_kerase _ _ (scanEntry_self cal _ env q)]
  apply List.Perm.of_eq
  apply List.filterMap_congr
  intro e he
  obtain ⟨k, v⟩ := e
  have hk : k = cacheKey v := hkey _ he
  subst hk
  exact scanEntry_own_key cal now env q v

theorem lookup_foldl_erase (old : OddsUpdate → Prop) [DecidablePred old]
    (l : List ((_ : String) × OddsUpdate)) (m : Cache) (k : String) :
    (l.foldl (fun m entry => if old entry.2 then m.erase entry.1 else m) m).lookup k
      = if ∃ e ∈ l, e.1 = k ∧ old e.2 then none else m.lookup k := by
  induction l generalizing m with
  | nil => simp
  | cons e l ih =>
    rw [List.foldl_cons, ih]
    by_cases h1 : ∃ e2 ∈ l, e2.1 = k ∧ old e2.2
    · obtain ⟨e2, h2, h3⟩ := h1
      rw [if_pos ⟨e2, h2, h3⟩, if_pos ⟨e2, List.mem_cons_of_mem _ h2, h3⟩]
    · rw [if_neg h1]
      by_cases h4 : e.1 = k ∧ old e.2
      · have h9 : ∃ e2 ∈ e :: l, e2.1 = k ∧ old e2.2 := ⟨e, List.mem_cons_self _ _, h4⟩
        rw [if_pos h4.2, if_pos h9, ← h4.1, AList.lookup_erase]
      · have h5 : ¬ ∃ e2 ∈ e :: l, e2.1 = k ∧ old e2.2 := by
          rintro ⟨e2, h6, h7⟩
          rcases List.mem_cons.mp h6 with rfl | h6
          · exact h4 h7
          · exact h1 ⟨e2, h6, h7⟩
        by_cases h8 : old e.2
        · have : k ≠ e.1 := fun hk => h4 ⟨hk.symm, h8⟩
          rw [if_pos h8, if_neg h5, AList.lookup_erase_ne this]
        · rw [if_neg h8, if_neg h5]

theorem cleanupSweep_lookup (now : Int) (oddsCache : Cache) (k : String) :
    (cleanupSweep now oddsCache).lookup k
      = (oddsCache.lookup k).filter (fun v => decide (now - v.Timestamp ≤ 60 * second)) := by
  unfold cleanupSweep
  rw [lookup_foldl_erase (fun v => Sub now v.Timestamp > 60 * second)]
  have hs : ∀ v : OddsUpdate,
      Sub now v.Timestamp > 60 * second ↔ ¬ now - v.Timestamp ≤ 60 * second := fun v => by
    rw [Sub_gt_iff _ _ _ (by unfold minDuration second; norm_num)
      (by unfold maxDuration second; norm_num), not_le]
  cases hl : oddsCache.lookup k with
  | none =>
    simp
  | some v =>
    have hm : (⟨k, v⟩ : (_ : String) × OddsUpdate) ∈ oddsCache.entries :=
      AList.mem_lookup_iff.mp hl
    by_cases ho : now - v.Timestamp ≤ 60 * second
    · have : ¬ ∃ e ∈ oddsCache.entries, e.1 = k ∧ Sub now e.2.Timestamp > 60 * second := by
        rintro ⟨⟨k2, v2⟩, h1, h2, h3⟩
        simp only at h2
        subst h2
        have : v2 = v := by
          have := AList.mem_lookup_iff.mpr h1
          rw [hl] at this
          exact (Option.some.inj this).symm
        subst this
        exact (hs v2).mp h3 ho
      rw [if_neg this]
      simp [Option.filter, ho]
    · rw [if_pos ⟨⟨k, v⟩, hm, rfl, (hs v).mpr ho⟩]
      simp [Option.filter, ho]

/-- C10: one sweep of `cleanupOldOdds` at time `now` removes exactly the entries
older than 60 seconds and leaves every other key with its entry unchanged; an entry
older than 30 seconds but not older than 60 seconds is still cached after the sweep,
and the loop of `processOdds`, run at `now` or later, skips it. -/
theorem C10_cleanup_sweep (now : Int) (oddsCache : Cache) :
    (∀ k, (cleanupSweep now oddsCache).lookup k
        = (oddsCache.lookup k).filter (fun v => decide (now - v.Timestamp ≤ 60 * second)))
    ∧ (∀ k v, oddsCache.lookup k = some v → 30 * second < now - v.Timestamp →
        now - v.Timestamp ≤ 60 * second →
        (cleanupSweep now oddsCache).lookup k = some v
        ∧ ∀ (cal : Calculator) (later : Int) (env : String → Env) (q : OddsUpdate),
            now ≤ later → scanEntry cal (fun _ => later) env q ⟨k, v⟩ = none) := by
  refine ⟨cleanupSweep_lookup now oddsCache, ?_⟩
  intro k v hl h30 h60
  constructor
  · rw [cleanupSweep_lookup, hl]
    simp [Option.filter, h60]
  · intro cal later env q hlater
    have hs : Sub later v.Timestamp > 30 * second := by
      rw [Sub_gt_iff _ _ _ (by unfold minDuration second; norm_num)
        (by unfold maxDuration second; norm_num)]
      omega
    unfold scanEntry
    simp only [hs, if_true]
    split_ifs <;> rfl


/-- C9 on a cache holding quote Y, an older quote of X, a stale quote and a quote
of event `e:1`, scanned for quote X at 10 seconds: every entry is under its own
key, and the emitted opportunities are those of the fresh entries of event `e`
from other bookmakers. -/
theorem C9_processOdds_emitted_witness :
    (∀ e ∈ cacheXY.entries, e.1 = cacheKey e.2)
    ∧ List.Perm (processOdds calcHalf (fun _ => 10 * second) (fun _ => env0) cacheXY quoteX).2
      (cacheXY.entries.filterMap (fun e =>
        if e.2.EventID = quoteX.EventID ∧ e.2.Bookmaker ≠ quoteX.Bookmaker
            ∧ 10 * second - e.2.Timestamp ≤ 30 * second
        then DetectArbitrage calcHalf ((fun _ => env0) (cacheKey e.2)) quoteX e.2 else none)) :=
  ⟨by decide,
    C9_processOdds_emitted calcHalf (10 * second) (fun _ => env0) cacheXY quoteX (by decide)⟩

/-- C10 on the example cache swept at 40 seconds: quote Y, 40 seconds old, is still
cached and is skipped by the loop of `processOdds` for quote X at 41 seconds, while
the quote of bookmaker Z, 70 seconds old, is gone. -/
theorem C10_cleanup_sweep_witness :
    (cleanupSweep (40 * second) cacheXY).lookup "e:Y" = some quoteY
    ∧ scanEntry calcHalf (fun _ => 41 * second) (fun _ => env0) quoteX ⟨"e:Y", quoteY⟩ = none
    ∧ (cleanupSweep (40 * second) cacheXY).lookup "e:Z"
        = (cacheXY.lookup "e:Z").filter (fun v => decide (40 * second - v.Timestamp ≤ 60 * second))
    ∧ (cacheXY.lookup "e:Z").filter (fun v => decide (40 * second - v.Timestamp ≤ 60 * second))
        = none :=
  let h := (C10_cleanup_sweep (40 * second) cacheXY).2 "e:Y" quoteY rfl (by decide) (by decide)
  ⟨h.1, h.2 calcHalf (41 * second) (fun _ => env0) quoteX (by decide),
    (C10_cleanup_sweep (40 * second) cacheXY).1 "e:Z", by decide⟩


/-! ## FormatOdds -/

theorem roundHalfEven_intCast (z : ℤ) : roundHalfEven (z : ℚ) = z := by
  unfold roundHalfEven
  rw [Int.floor_intCast, sub_self, if_pos (by norm_num)]

theorem sprintf0_nonneg_int (z : ℤ) (hz : 0 ≤ z) :
    sprintf0 (fin (z : ℚ)) = Nat.repr z.toNat := by
  have h0 : (0 : ℚ) ≤ (z : ℚ) := by exact_mod_cast hz
  show (if (z : ℚ) < 0 then "-" else "") ++ Nat.repr (roundHalfEven |(z : ℚ)|).toNat = _
  rw [if_neg (not_lt.mpr h0), abs_of_nonneg h0, roundHalfEven_intCast]
  rfl

theorem sprintf0_neg_int (z : ℤ) (hz : 0 < z) :
    sprintf0 (fin (-(z : ℚ))) = "-" ++ Nat.repr z.toNat := by
  have h0 : (0 : ℚ) < (z : ℚ) := by exact_mod_cast hz
  show (if -(z : ℚ) < 0 then "-" else "") ++ Nat.repr (roundHalfEven |(-(z : ℚ))|).toNat = _
  rw [if_pos (by linarith), abs_neg, abs_of_pos h0, roundHalfEven_intCast]

/-! ## The cache slots -/

/-- After `processOdds` the slot of the quote's own pair holds the quote. -/
theorem processOdds_entryFor_self (cal : Calculator) (clock : String → Int)
    (env : String → Env) (oddsCache : Cache) (q : OddsUpdate) :
    entryFor (processOdds cal clock env oddsCache q).1 q.EventID q.Bookmaker = some q := by
  unfold entryFor processOdds cacheKey
  exact AList.lookup_insert _

/-- After `processOdds` every key other than the quote's key maps to what it did. -/
theorem processOdds_lookup_of_ne (cal : Calculator) (clock : String → Int)
    (env : String → Env) (oddsCache : Cache) (q : OddsUpdate) (k : String)
    (hk : k ≠ cacheKey q) :
    (processOdds cal clock env oddsCache q).1.lookup k = oddsCache.lookup k := by
  unfold processOdds
  exact AList.lookup_insert_ne hk

theorem append_cons_inj_of_not_mem (c : Char) :
    ∀ (l1 l2 r1 r2 : List Char), c ∉ l1 → c ∉ l2 → l1 ++ c :: r1 = l2 ++ c :: r2 →
      l1 = l2 ∧ r1 = r2
  | [], [], _, _, _, _, h => ⟨rfl, (List.cons.inj h).2⟩
  | [], y :: l2, _, _, _, h2, h => by
    have : c = y := (List.cons.inj h).1
    exact absurd (this ▸ List.mem_cons_self _ _) h2
  | x :: l1, [], _, _, h1, _, h => by
    have : x = c := (List.cons.inj h).1
    exact absurd (this ▸ List.mem_cons_self _ _) h1
  | x :: l1, y :: l2, r1, r2, h1, h2, h => by
    obtain ⟨hxy, ht⟩ := List.cons.inj h
    obtain ⟨e1, e2⟩ := append_cons_inj_of_not_mem c l1 l2 r1 r2
      (fun hm => h1 (List.mem_cons_of_mem _ hm)) (fun hm => h2 (List.mem_cons_of_mem _ hm)) ht
    exact ⟨by rw [hxy, e1], e2⟩

/-- The key determines the pair when the event identifiers contain no colon. -/
theorem key_inj_of_no_colon (e1 b1 e2 b2 : String) (h1 : ':' ∉ e1.data) (h2 : ':' ∉ e2.data)
    (h : e1 ++ ":" ++ b1 = e2 ++ ":" ++ b2) : e1 = e2 ∧ b1 = b2 := by
  have hd := congrArg String.data h
  simp only [String.data_append] at hd
  rw [List.append_assoc, List.append_assoc, List.singleton_append,
    List.singleton_append] at hd
  obtain ⟨a1, a2⟩ := append_cons_inj_of_not_mem ':' _ _ _ _ h1 h2 hd
  exact ⟨String.ext a1, String.ext a2⟩

/-- After `processOdds` the slot of every other pair is unchanged, as long as no
event identifier contains a colon. -/
theorem processOdds_entryFor_of_no_colon (cal : Calculator) (clock : String → Int)
    (env : String → Env) (oddsCache : Cache) (q : OddsUpdate) (event source : String)
    (h1 : ':' ∉ event.data) (h2 : ':' ∉ q.EventID.data)
    (hne : (event, source) ≠ (q.EventID, q.Bookmaker)) :
    entryFor (processOdds cal clock env oddsCache q).1 event source
      = entryFor oddsCache event source := by
  unfold entryFor
  apply processOdds_lookup_of_ne
  intro hk
  obtain ⟨e1, e2⟩ := key_inj_of_no_colon event source q.EventID q.Bookmaker h1 h2 hk
  exact hne (by rw [e1, e2])

/-- C11 fails at a key collision: the pair (event `a`, bookmaker `b:c`) and the pair
(event `a:b`, bookmaker `c`) differ but share the key `a:b:c`, so `processOdds` of a
quote of the second pair replaces the cached entry of the first pair. -/
theorem C11_key_collision :
    (quoteColonSource.EventID, quoteColonSource.Bookmaker)
        ≠ (quoteColonEvent.EventID, quoteColonEvent.Bookmaker)
    ∧ cacheKey quoteColonSource = cacheKey quoteColonEvent
    ∧ entryFor cacheColon "a" "b:c" = some quoteColonSource
    ∧ entryFor (processOdds calcHalf (fun _ => 1) (fun _ => env0) cacheColon quoteColonEvent).1
        "a" "b:c" = some quoteColonEvent
    ∧ quoteColonEvent ≠ quoteColonSource := by
  refine ⟨by decide, by decide, rfl, rfl, ?_⟩
  intro h
  exact absurd (congrArg OddsUpdate.EventID h) (by decide)


/-! ## binary64 rounding -/

theorem roundHalfEven_ge (x : ℚ) (z : ℤ) (h : (z : ℚ) ≤ x) : z ≤ roundHalfEven x := by
  have hf : z ≤ ⌊x⌋ := Int.le_floor.mpr h
  unfold roundHalfEven
  split_ifs <;> omega

theorem roundHalfEven_le (x : ℚ) (z : ℤ) (h : x ≤ (z : ℚ)) : roundHalfEven x ≤ z := by
  have hf : ⌊x⌋ ≤ z := by
    have : (⌊x⌋ : ℚ) ≤ z := (Int.floor_le x).trans h
    exact_mod_cast this
  unfold roundHalfEven
  split_ifs with h1 h2 h3
  · exact hf
  · have : (⌊x⌋ : ℚ) < z := by linarith
    have : ⌊x⌋ < z := by exact_mod_cast this
    omega
  · exact hf
  · have : (⌊x⌋ : ℚ) < z := by linarith
    have : ⌊x⌋ < z := by exact_mod_cast this
    omega

theorem roundHalfEven_near (x : ℚ) (z : ℤ) (h1 : (z : ℚ) - 1 / 2 < x) (h2 : x < z + 1 / 2) :
    roundHalfEven x = z := by
  unfold roundHalfEven
  by_cases hz : (z : ℚ) ≤ x
  · have hf : ⌊x⌋ = z := Int.floor_eq_iff.mpr ⟨hz, by linarith⟩
    rw [hf, if_pos (by linarith)]
  · have hf : ⌊x⌋ = z - 1 := Int.floor_eq_iff.mpr ⟨by push_cast; linarith, by push_cast; linarith⟩
    rw [hf, if_neg (by push_cast; linarith), if_pos (by push_cast; linarith)]
    ring

theorem roundHalfEven_tie_even (z : ℤ) (hz : z % 2 = 0) : roundHalfEven ((z : ℚ) + 1 / 2) = z := by
  have hf : ⌊(z : ℚ) + 1 / 2⌋ = z := Int.floor_eq_iff.mpr ⟨by linarith, by linarith⟩
  unfold roundHalfEven
  rw [hf, if_neg (by norm_num), if_neg (by norm_num), if_pos hz]

theorem round_fin_ne_nan (q : ℚ) : F64.round (fin q) ≠ nan := by
  unfold F64.round
  simp only
  split_ifs <;> simp

theorem round_ne_nan (x : F64) (hx : x ≠ nan) : F64.round x ≠ nan := by
  cases x with
  | fin q => exact round_fin_ne_nan q
  | posInf => simp [F64.round]
  | negInf => simp [F64.round]
  | nan => exact absurd rfl hx

/-- The rounding of a positive value, with its exponent and spacing spelt out. -/
theorem round_of_pos (q : ℚ) (hq : 0 < q) :
    F64.round (fin q) =
      if (2 : ℚ) ^ (1024 : ℤ)
          ≤ roundHalfEven (q / 2 ^ (max (Int.log 2 q) (-1022) - 52))
            * 2 ^ (max (Int.log 2 q) (-1022) - 52)
      then posInf
      else fin (roundHalfEven (q / 2 ^ (max (Int.log 2 q) (-1022) - 52))
            * 2 ^ (max (Int.log 2 q) (-1022) - 52)) := by
  unfold F64.round
  simp only [hq.ne', if_false, abs_of_pos hq, hq, if_true]


theorem two_zpow_pos (k : ℤ) : (0 : ℚ) < 2 ^ k := zpow_pos (by norm_num) k

theorem two_zpow_split (s t : ℤ) (h : t ≤ s) :
    (2 : ℚ) ^ s = ((2 ^ (s - t).toNat : ℤ) : ℚ) * 2 ^ t := by
  push_cast
  rw [← zpow_natCast, Int.toNat_of_nonneg (by omega), ← zpow_add₀ (by norm_num)]
  congr 1
  ring

theorem roundHalfEven_scaled_ge (q : ℚ) (t s : ℤ) (hts : t ≤ s) (h : (2 : ℚ) ^ s ≤ q) :
    (2 : ℚ) ^ s ≤ roundHalfEven (q / 2 ^ t) * 2 ^ t := by
  have hu := two_zpow_pos t
  rw [two_zpow_split s t hts] at h ⊢
  have hx : (((2 ^ (s - t).toNat : ℤ)) : ℚ) ≤ q / 2 ^ t := by
    rw [le_div_iff₀ hu]; exact h
  have hm := roundHalfEven_ge _ _ hx
  exact mul_le_mul_of_nonneg_right (by exact_mod_cast hm) hu.le

theorem roundHalfEven_scaled_le (q : ℚ) (t s : ℤ) (hts : t ≤ s) (h : q ≤ (2 : ℚ) ^ s) :
    (roundHalfEven (q / 2 ^ t) : ℚ) * 2 ^ t ≤ 2 ^ s := by
  have hu := two_zpow_pos t
  rw [two_zpow_split s t hts] at h ⊢
  have hx : q / 2 ^ t ≤ (((2 ^ (s - t).toNat : ℤ)) : ℚ) := by
    rw [div_le_iff₀ hu]; exact h
  have hm := roundHalfEven_le _ _ hx
  exact mul_le_mul_of_nonneg_right (by exact_mod_cast hm) hu.le

theorem two_zpow_log_le (q : ℚ) (hq : 0 < q) : (2 : ℚ) ^ Int.log 2 q ≤ q := by
  have := Int.zpow_log_le_self (b := 2) (r := q) (by norm_num) hq
  exact_mod_cast this

theorem log_le_of_le_two_zpow (q : ℚ) (hq : 0 < q) (b : ℤ) (h : q ≤ 2 ^ b) :
    Int.log 2 q ≤ b := by
  have h1 := (two_zpow_log_le q hq).trans h
  exact (zpow_le_zpow_iff_right₀ (by norm_num : (1 : ℚ) < 2)).mp h1

/-- The rounded magnitude stays above a power of two below the value. -/
theorem scaled_lower (q : ℚ) (a : ℤ) (ha : -1074 ≤ a) (h : (2 : ℚ) ^ a ≤ q) :
    (2 : ℚ) ^ a ≤ roundHalfEven (q / 2 ^ (max (Int.log 2 q) (-1022) - 52))
      * 2 ^ (max (Int.log 2 q) (-1022) - 52) := by
  have hq : 0 < q := lt_of_lt_of_le (two_zpow_pos a) h
  by_cases hat : max (Int.log 2 q) (-1022) - 52 ≤ a
  · exact roundHalfEven_scaled_ge q _ a hat h
  · have he : max (Int.log 2 q) (-1022) = Int.log 2 q := by
      apply max_eq_left
      by_contra hc
      rw [max_eq_right (le_of_not_le hc)] at hat
      omega
    rw [he] at hat ⊢
    have h1 : (2 : ℚ) ^ (Int.log 2 q - 52) ≤ q :=
      (zpow_le_zpow_right₀ (by norm_num) (by omega)).trans (two_zpow_log_le q hq)
    have h2 := roundHalfEven_scaled_ge q (Int.log 2 q - 52) _ le_rfl h1
    exact (zpow_le_zpow_right₀ (by norm_num) (by omega)).trans h2

/-- Rounding does not cross a power of two from above. -/
theorem round_lower (q : ℚ) (a : ℤ) (ha : -1074 ≤ a) (h : (2 : ℚ) ^ a ≤ q) :
    F64.round (fin q) = posInf ∨ ∃ v, F64.round (fin q) = fin v ∧ (2 : ℚ) ^ a ≤ v := by
  have hq : 0 < q := lt_of_lt_of_le (two_zpow_pos a) h
  rw [round_of_pos q hq]
  split_ifs with hov
  · exact Or.inl rfl
  · exact Or.inr ⟨_, rfl, scaled_lower q a ha h⟩

/-- A value of `2 ^ 1024` or more rounds to `+Inf`. -/
theorem round_overflow (q : ℚ) (h : (2 : ℚ) ^ (1024 : ℤ) ≤ q) : F64.round (fin q) = posInf := by
  have hq : 0 < q := lt_of_lt_of_le (two_zpow_pos 1024) h
  rw [round_of_pos q hq, if_pos (scaled_lower q 1024 (by norm_num) h)]

/-- Rounding does not cross a power of two from below, and a value of at most
`2 ^ 1023` does not overflow. -/
theorem round_upper (q : ℚ) (b : ℤ) (hb1 : -1074 ≤ b) (hb2 : b ≤ 1023) (hq : 0 ≤ q)
    (h : q ≤ (2 : ℚ) ^ b) :
    ∃ v, F64.round (fin q) = fin v ∧ 0 ≤ v ∧ v ≤ (2 : ℚ) ^ b := by
  rcases hq.eq_or_lt with h0 | hq
  · subst h0
    exact ⟨0, by simp [F64.round], le_rfl, (two_zpow_pos b).le⟩
  · have hL := log_le_of_le_two_zpow q hq b h
    have ht : max (Int.log 2 q) (-1022) - 52 ≤ b := by
      rcases max_cases (Int.log 2 q) (-1022) with ⟨e, -⟩ | ⟨e, -⟩ <;> rw [e] <;> omega
    have hle := roundHalfEven_scaled_le q _ b ht h
    have hm : (0 : ℤ) ≤ roundHalfEven (q / 2 ^ (max (Int.log 2 q) (-1022) - 52)) :=
      roundHalfEven_ge _ 0 (by
        have := two_zpow_pos (max (Int.log 2 q) (-1022) - 52)
        push_cast
        positivity)
    rw [round_of_pos q hq]
    have hnov : ¬ (2 : ℚ) ^ (1024 : ℤ)
        ≤ roundHalfEven (q / 2 ^ (max (Int.log 2 q) (-1022) - 52))
          * 2 ^ (max (Int.log 2 q) (-1022) - 52) := by
      intro hc
      have h3 := hc.trans hle
      have := (zpow_le_zpow_iff_right₀ (by norm_num : (1 : ℚ) < 2)).mp h3
      omega
    rw [if_neg hnov]
    refine ⟨_, rfl, ?_, hle⟩
    exact mul_nonneg (by exact_mod_cast hm) (two_zpow_pos _).le

/-- Rounding keeps a value between two powers of two in the binary64 range. -/
theorem round_within (q : ℚ) (a b : ℤ) (ha : -1074 ≤ a) (hb : b ≤ 1023)
    (h1 : (2 : ℚ) ^ a ≤ q) (h2 : q ≤ (2 : ℚ) ^ b) :
    ∃ v, F64.round (fin q) = fin v ∧ (2 : ℚ) ^ a ≤ v ∧ v ≤ (2 : ℚ) ^ b := by
  have hq : 0 < q := lt_of_lt_of_le (two_zpow_pos a) h1
  have hab : a ≤ b := (zpow_le_zpow_iff_right₀ (by norm_num : (1 : ℚ) < 2)).mp (h1.trans h2)
  obtain ⟨v, hv, -, hvb⟩ := round_upper q b (by omega) hb hq.le h2
  rcases round_lower q a ha h1 with hinf | ⟨w, hw, hwa⟩
  · rw [hv] at hinf; exact absurd hinf (by simp)
  · rw [hv] at hw
    have : v = w := by injection hw
    exact ⟨v, hv, this ▸ hwa, hvb⟩


theorem log_two_eq (q : ℚ) (hq : 0 < q) (e : ℤ) (h1 : (2 : ℚ) ^ e ≤ q)
    (h2 : q < (2 : ℚ) ^ (e + 1)) : Int.log 2 q = e := by
  apply le_antisymm
  · have := (Int.lt_zpow_iff_log_lt (b := 2) (by norm_num) hq (x := e + 1)).mp
      (by exact_mod_cast h2)
    omega
  · exact (Int.zpow_le_iff_le_log (b := 2) (by norm_num) hq).mp (by exact_mod_cast h1)

theorem round_neg (q : ℚ) : F64.round (fin (-q)) = F64.neg (F64.round (fin q)) := by
  rcases lt_trichotomy q 0 with h | h | h
  · have h1 : ¬ 0 < q := not_lt.mpr h.le
    have h2 : 0 < -q := by linarith
    simp only [F64.round, neg_eq_zero, h.ne, if_false, abs_neg, h1, h2, if_true]
    split_ifs <;> simp [F64.neg]
  · subst h
    simp [F64.round, F64.neg]
  · have h1 : ¬ 0 < -q := by linarith
    simp only [F64.round, neg_eq_zero, h.ne', if_false, abs_neg, h1, h, if_true]
    split_ifs <;> simp [F64.neg]

/-- A double is a fixed point of the rounding: a value `m * 2 ^ k` with a
significand below `2 ^ 53`, an exponent of at least `-1074` and a magnitude below
`2 ^ 1024`. -/
theorem round_exact_pos (q : ℚ) (m k : ℤ) (hq : q = m * 2 ^ k) (hm0 : 0 < m)
    (hm : m < 2 ^ 53) (hk : -1074 ≤ k) (hfin : q < (2 : ℚ) ^ (1024 : ℤ)) :
    F64.round (fin q) = fin q := by
  have hqpos : 0 < q := by
    rw [hq]; exact mul_pos (by exact_mod_cast hm0) (two_zpow_pos k)
  have hL : Int.log 2 q < 53 + k := by
    apply (Int.lt_zpow_iff_log_lt (b := 2) (by norm_num) hqpos).mp
    have h1 : (m : ℚ) < 2 ^ (53 : ℤ) := by exact_mod_cast hm
    have h2 : (2 : ℚ) ^ (53 + k) = 2 ^ (53 : ℤ) * 2 ^ k := zpow_add₀ (by norm_num) _ _
    push_cast
    rw [hq, h2]
    exact mul_lt_mul_of_pos_right h1 (two_zpow_pos k)
  have ht : max (Int.log 2 q) (-1022) - 52 ≤ k := by
    rcases max_cases (Int.log 2 q) (-1022) with ⟨e, -⟩ | ⟨e, -⟩ <;> rw [e] <;> omega
  rw [round_of_pos q hqpos]
  generalize max (Int.log 2 q) (-1022) - 52 = t at ht ⊢
  have hu := two_zpow_pos t
  have hx : q / 2 ^ t = ((m * 2 ^ (k - t).toNat : ℤ) : ℚ) := by
    rw [div_eq_iff hu.ne', hq, two_zpow_split k t ht]
    push_cast
    ring
  have hv : (roundHalfEven (q / 2 ^ t) : ℚ) * 2 ^ t = q := by
    rw [hx, roundHalfEven_intCast, ← hx]
    field_simp
  rw [hv, if_neg (not_le.mpr hfin)]

theorem round_exact (q : ℚ) (m k : ℤ) (hq : q = m * 2 ^ k) (hm1 : -2 ^ 53 < m)
    (hm2 : m < 2 ^ 53) (hk : -1074 ≤ k) (hfin1 : -(2 : ℚ) ^ (1024 : ℤ) < q)
    (hfin2 : q < (2 : ℚ) ^ (1024 : ℤ)) :
    F64.round (fin q) = fin q := by
  rcases lt_trichotomy m 0 with h | h | h
  · have h1 : F64.round (fin (-q)) = fin (-q) :=
      round_exact_pos (-q) (-m) k (by rw [hq]; push_cast; ring) (by omega) (by omega) hk
        (by linarith)
    have h2 := round_neg (-q)
    rw [neg_neg, h1] at h2
    rw [h2]; simp [F64.neg]
  · subst h
    have : q = 0 := by rw [hq]; simp
    subst this
    simp [F64.round]
  · exact round_exact_pos q m k hq h hm2 hk hfin2

/-- The rounding of a positive value in the normal range that is nearer to
`m * 2 ^ (e - 52)` than half the spacing. -/
theorem round_pos_near (q : ℚ) (e m : ℤ) (he1 : (2 : ℚ) ^ e ≤ q)
    (he2 : q < (2 : ℚ) ^ (e + 1)) (hE : -1022 ≤ e)
    (h1 : ((m : ℚ) - 1 / 2) * 2 ^ (e - 52) < q) (h2 : q < ((m : ℚ) + 1 / 2) * 2 ^ (e - 52))
    (hfin : (m : ℚ) * 2 ^ (e - 52) < (2 : ℚ) ^ (1024 : ℤ)) :
    F64.round (fin q) = fin (m * 2 ^ (e - 52)) := by
  have hq : 0 < q := lt_of_lt_of_le (two_zpow_pos e) he1
  have hu := two_zpow_pos (e - 52)
  have hm : roundHalfEven (q / 2 ^ (e - 52)) = m :=
    roundHalfEven_near _ _ (by rw [lt_div_iff₀ hu]; exact h1) (by rw [div_lt_iff₀ hu]; exact h2)
  rw [round_of_pos q hq, log_two_eq q hq e he1 he2, max_eq_left hE, hm, if_neg (not_le.mpr hfin)]

/-- The rounding of a positive value in the normal range that is halfway between
`m * 2 ^ (e - 52)`, with `m` even, and the next double. -/
theorem round_pos_tie (q : ℚ) (e m : ℤ) (he1 : (2 : ℚ) ^ e ≤ q)
    (he2 : q < (2 : ℚ) ^ (e + 1)) (hE : -1022 ≤ e) (hm2 : m % 2 = 0)
    (h : q = ((m : ℚ) + 1 / 2) * 2 ^ (e - 52))
    (hfin : (m : ℚ) * 2 ^ (e - 52) < (2 : ℚ) ^ (1024 : ℤ)) :
    F64.round (fin q) = fin (m * 2 ^ (e - 52)) := by
  have hq : 0 < q := lt_of_lt_of_le (two_zpow_pos e) he1
  have hu := two_zpow_pos (e - 52)
  have hx : q / 2 ^ (e - 52) = (m : ℚ) + 1 / 2 := by
    rw [div_eq_iff hu.ne', h]
  rw [round_of_pos q hq, log_two_eq q hq e he1 he2, max_eq_left hE, hx,
    roundHalfEven_tie_even m hm2, if_neg (not_le.mpr hfin)]



/-! ## FormatOdds on float64 -/

theorem sprintf0_int (z : ℤ) (hz : 0 ≤ z) : sprintf0 (fin ((z : ℤ) : ℚ)) = Nat.repr z.toNat :=
  sprintf0_nonneg_int z hz

theorem FormatOdds_ge (d : ℚ) (hd : 2 ≤ d) :
    FormatOdds (fin d) = "+" ++ sprintf0 (F64.mul64 (F64.sub64 (fin d) (fin 1)) (fin 100)) := by
  unfold FormatOdds
  rw [ge_fin, if_pos (decide_eq_true hd)]

theorem FormatOdds_lt (d : ℚ) (hd : d < 2) :
    FormatOdds (fin d) = sprintf0 (F64.div64 (fin (-100)) (F64.sub64 (fin d) (fin 1))) := by
  unfold FormatOdds
  rw [ge_fin, if_neg (by simpa using hd)]

theorem sub64_fin (x y : ℚ) : F64.sub64 (fin x) (fin y) = F64.round (fin (x - y)) := by
  unfold F64.sub64; rw [sub_fin]

theorem mul64_fin (x y : ℚ) : F64.mul64 (fin x) (fin y) = F64.round (fin (x * y)) := rfl

theorem add64_fin (x y : ℚ) : F64.add64 (fin x) (fin y) = F64.round (fin (x + y)) := rfl

theorem div64_fin (x y : ℚ) (hy : y ≠ 0) :
    F64.div64 (fin x) (fin y) = F64.round (fin (x / y)) := by
  unfold F64.div64; rw [div_fin_of_ne _ _ hy]

theorem FormatOdds_250 : FormatOdds (fin (5 / 2)) = "+150" := by
  rw [FormatOdds_ge _ (by norm_num), sub64_fin]
  have h1 : F64.round (fin (5 / 2 - 1)) = fin (5 / 2 - 1) :=
    round_exact _ 3 (-1) (by norm_num) (by norm_num) (by norm_num) (by norm_num) (by norm_num)
      (by norm_num)
  rw [h1, mul64_fin]
  have h2 : ((5 / 2 - 1) * 100 : ℚ) = ((150 : ℤ) : ℚ) := by norm_num
  rw [h2]
  have h3 : F64.round (fin ((150 : ℤ) : ℚ)) = fin ((150 : ℤ) : ℚ) :=
    round_exact _ 150 0 (by norm_num) (by norm_num) (by norm_num) (by norm_num) (by norm_num)
      (by norm_num)
  rw [h3, sprintf0_int 150 (by norm_num)]
  rfl

theorem FormatOdds_150 : FormatOdds (fin (3 / 2)) = "-200" := by
  rw [FormatOdds_lt _ (by norm_num), sub64_fin]
  have h1 : F64.round (fin (3 / 2 - 1)) = fin (3 / 2 - 1) :=
    round_exact _ 1 (-1) (by norm_num) (by norm_num) (by norm_num) (by norm_num) (by norm_num)
      (by norm_num)
  rw [h1, div64_fin _ _ (by norm_num)]
  have h2 : (-100 / (3 / 2 - 1) : ℚ) = -((200 : ℤ) : ℚ) := by norm_num
  rw [h2]
  have h3 : F64.round (fin (-((200 : ℤ) : ℚ))) = fin (-((200 : ℤ) : ℚ)) :=
    round_exact _ (-200) 0 (by norm_num) (by norm_num) (by norm_num) (by norm_num) (by norm_num)
      (by norm_num)
  rw [h3, sprintf0_neg_int 200 (by norm_num)]
  rfl

theorem bigDecimal_product :
    F64.mul64 (F64.sub64 (fin bigDecimal) (fin 1)) (fin 100)
      = fin ((14073748835532824 : ℤ) : ℚ) := by
  unfold bigDecimal
  rw [sub64_fin]
  have h1 : F64.round (fin (2 ^ 47 + 5 / 4 - 1)) = fin (2 ^ 47 + 5 / 4 - 1) :=
    round_exact _ (2 ^ 49 + 1) (-2) (by norm_num) (by norm_num) (by norm_num) (by norm_num)
      (by norm_num) (by norm_num)
  rw [h1, mul64_fin]
  have h2 := round_pos_tie ((2 ^ 47 + 5 / 4 - 1) * 100) 53 7036874417766412 (by norm_num)
    (by norm_num) (by norm_num) (by norm_num) (by norm_num) (by norm_num)
  rw [h2]
  congr 1
  norm_num


theorem round_nonneg (q w : ℚ) (hq : 0 ≤ q) (h : F64.round (fin q) = fin w) : 0 ≤ w := by
  rcases hq.eq_or_lt with h0 | hq
  · subst h0
    have : F64.round (fin 0) = fin 0 := by simp [F64.round]
    rw [this] at h
    injection h with h
    exact h ▸ le_rfl
  · rw [round_of_pos q hq] at h
    split_ifs at h
    injection h with h
    rw [← h]
    have hm : (0 : ℤ) ≤ roundHalfEven (q / 2 ^ (max (Int.log 2 q) (-1022) - 52)) :=
      roundHalfEven_ge _ 0 (by
        have := two_zpow_pos (max (Int.log 2 q) (-1022) - 52)
        push_cast
        positivity)
    exact mul_nonneg (by exact_mod_cast hm) (two_zpow_pos _).le

theorem FormatOdds_pos_general (d : ℚ) (n : ℤ) (hd : 2 ≤ d)
    (h : F64.mul64 (F64.sub64 (fin d) (fin 1)) (fin 100) = fin (n : ℚ)) :
    FormatOdds (fin d) = "+" ++ Nat.repr n.toNat := by
  have hn : 0 ≤ n := by
    rw [sub64_fin] at h
    rcases round_lower (d - 1) 0 (by norm_num) (by norm_num; linarith) with hi | ⟨v, hv, hv1⟩
    · rw [hi] at h
      have : F64.mul64 posInf (fin 100) = posInf := by
        simp [F64.mul64, F64.mul, F64.infOfSign, F64.round]
      rw [this] at h
      exact absurd h (by simp)
    · rw [hv, mul64_fin] at h
      have hv0 : (0 : ℚ) ≤ v * 100 := by
        have : (1 : ℚ) ≤ v := by simpa using hv1
        nlinarith
      have := round_nonneg _ _ hv0 h
      exact_mod_cast this
  rw [FormatOdds_ge d hd, h, sprintf0_int n hn]

theorem FormatOdds_neg_general (d : ℚ) (m : ℤ) (h1 : 1 < d) (h2 : d < 2)
    (h : F64.div64 (fin 100) (F64.sub64 (fin d) (fin 1)) = fin (m : ℚ)) :
    FormatOdds (fin d) = "-" ++ Nat.repr m.toNat := by
  rw [FormatOdds_lt d h2]
  rw [sub64_fin] at h ⊢
  obtain ⟨v, hv, hv0, hv1⟩ := round_upper (d - 1) 0 (by norm_num) (by norm_num) (by linarith)
    (by norm_num; linarith)
  rw [hv] at h ⊢
  rcases hv0.eq_or_lt with h0 | hvpos
  · subst h0
    have : F64.div64 (fin 100) (fin 0) = posInf := by
      simp [F64.div64, F64.div, F64.infOfSign, F64.round]
    rw [this] at h
    exact absurd h (by simp)
  · rw [div64_fin _ _ hvpos.ne'] at h ⊢
    have hm : 0 < m := by
      have hv1' : v ≤ 1 := by simpa using hv1
      have h100 : (2 : ℚ) ^ (6 : ℤ) ≤ 100 / v := by
        rw [le_div_iff₀ hvpos]
        norm_num
        nlinarith
      rcases round_lower (100 / v) 6 (by norm_num) h100 with hi | ⟨w, hw, hw6⟩
      · rw [hi] at h; exact absurd h (by simp)
      · rw [hw] at h
        injection h with h
        have : (0 : ℚ) < m := by
          rw [← h]
          exact lt_of_lt_of_le (two_zpow_pos 6) hw6
        exact_mod_cast this
    have hneg : (-100 / v : ℚ) = -(100 / v) := by ring
    rw [hneg, round_neg, h]
    show sprintf0 (fin (-(m : ℚ))) = _
    exact sprintf0_neg_int m hm


/-- A positive double is a significand of at most 53 bits times a power of two. -/
theorem isDouble_repr (q : ℚ) (hd : isDouble q) (hq : 0 < q) :
    ∃ m k : ℤ, q = m * 2 ^ k ∧ 0 < m ∧ m ≤ 2 ^ 53 ∧ -1074 ≤ k := by
  unfold isDouble at hd
  rw [round_of_pos q hq] at hd
  split_ifs at hd
  injection hd with hd
  have hk : -1074 ≤ max (Int.log 2 q) (-1022) - 52 := by
    have := le_max_right (Int.log 2 q) (-1022)
    omega
  have hL : Int.log 2 q + 1 ≤ max (Int.log 2 q) (-1022) - 52 + 53 := by
    have := le_max_left (Int.log 2 q) (-1022)
    omega
  have hq2 : q ≤ (2 : ℚ) ^ (max (Int.log 2 q) (-1022) - 52 + 53) := by
    have h1 : q < (2 : ℚ) ^ (Int.log 2 q + 1) := by
      have := Int.lt_zpow_succ_log_self (b := 2) (by norm_num) q
      exact_mod_cast this
    exact h1.le.trans (zpow_le_zpow_right₀ (by norm_num) hL)
  have hle := roundHalfEven_scaled_le q (max (Int.log 2 q) (-1022) - 52) _ (by omega) hq2
  generalize max (Int.log 2 q) (-1022) - 52 = t at hd hk hle
  generalize roundHalfEven (q / 2 ^ t) = m at hd hle
  have hu := two_zpow_pos t
  refine ⟨m, t, hd.symm, ?_, ?_, hk⟩
  · have : (0 : ℚ) < m := by
      by_contra hc
      have : (m : ℚ) * 2 ^ t ≤ 0 := mul_nonpos_of_nonpos_of_nonneg (not_lt.mp hc) hu.le
      linarith
    exact_mod_cast this
  · have h2 : (2 : ℚ) ^ (t + 53) = 2 ^ (53 : ℤ) * 2 ^ t := by
      rw [← zpow_add₀ (by norm_num)]; congr 1; ring
    rw [h2] at hle
    have : (m : ℚ) ≤ 2 ^ (53 : ℤ) := le_of_mul_le_mul_right hle hu
    exact_mod_cast this

/-- Subtracting one from a double above one is exact below `2 ^ 53`. -/
theorem sub64_one_exact (d : ℚ) (hd : isDouble d) (h1 : 1 < d) (h2 : d - 1 < 2 ^ 53) :
    F64.sub64 (fin d) (fin 1) = fin (d - 1) := by
  rw [sub64_fin]
  obtain ⟨m, k, hq, hm0, hm, hk⟩ := isDouble_repr d hd (by linarith)
  have hfin : d - 1 < (2 : ℚ) ^ (1024 : ℤ) := h2.trans (by norm_num)
  by_cases hk0 : 0 ≤ k
  · have hd' : d = ((m * 2 ^ k.toNat : ℤ) : ℚ) := by
      rw [hq]; push_cast
      rw [← zpow_natCast, Int.toNat_of_nonneg hk0]
    have hD1 : (1 : ℤ) < m * 2 ^ k.toNat := by
      have : ((1 : ℤ) : ℚ) < ((m * 2 ^ k.toNat : ℤ) : ℚ) := by rw [← hd']; simpa using h1
      exact_mod_cast this
    have hD2 : m * 2 ^ k.toNat - 1 < 2 ^ 53 := by
      have : ((m * 2 ^ k.toNat - 1 : ℤ) : ℚ) < ((2 ^ 53 : ℤ) : ℚ) := by
        push_cast; push_cast at hd'; rw [← hd']; exact h2
      exact_mod_cast this
    exact round_exact_pos (d - 1) (m * 2 ^ k.toNat - 1) 0
      (by rw [hd']; push_cast; ring) (by omega) hD2 (by norm_num) hfin
  · have hk' : k < 0 := not_le.mp hk0
    have hsplit : (1 : ℚ) = ((2 ^ (-k).toNat : ℤ) : ℚ) * 2 ^ k := by
      have := two_zpow_split 0 k hk'.le
      simpa using this
    have hq' : d - 1 = ((m - 2 ^ (-k).toNat : ℤ) : ℚ) * 2 ^ k := by
      push_cast
      rw [sub_mul, ← hq]
      push_cast at hsplit
      rw [← hsplit]
    have hpow : (2 : ℤ) ≤ 2 ^ (-k).toNat := by
      have h1 : (-k).toNat ≠ 0 := by omega
      calc (2 : ℤ) = 2 ^ 1 := by norm_num
        _ ≤ 2 ^ (-k).toNat := pow_le_pow_right₀ (by norm_num) (by omega)
    have hm' : 0 < m - 2 ^ (-k).toNat := by
      have : (0 : ℚ) < ((m - 2 ^ (-k).toNat : ℤ) : ℚ) := by
        have hu := two_zpow_pos k
        have h3 : (0 : ℚ) < ((m - 2 ^ (-k).toNat : ℤ) : ℚ) * 2 ^ k := by rw [← hq']; linarith
        by_contra hc
        have := mul_nonpos_of_nonpos_of_nonneg (not_lt.mp hc) hu.le
        linarith
      exact_mod_cast this
    exact round_exact_pos (d - 1) (m - 2 ^ (-k).toNat) k hq' hm' (by omega) hk hfin


theorem round_int_exact (n : ℤ) (h0 : 0 < n) (h1 : n < 2 ^ 53) :
    F64.round (fin (n : ℚ)) = fin (n : ℚ) :=
  round_exact_pos (n : ℚ) n 0 (by simp) h0 h1 (by norm_num)
    (by
      have : (n : ℚ) < ((2 ^ 53 : ℤ) : ℚ) := by exact_mod_cast h1
      exact this.trans (by norm_num))

theorem FormatOdds_pos_exact (d : ℚ) (n : ℤ) (hd : isDouble d) (h2 : 2 ≤ d)
    (h : 100 * (d - 1) = (n : ℚ)) (hn : n < 2 ^ 53) :
    FormatOdds (fin d) = "+" ++ Nat.repr n.toNat := by
  have hnq : (n : ℚ) < 2 ^ 53 := by exact_mod_cast hn
  have hn0 : 0 < n := by
    have : (0 : ℚ) < (n : ℚ) := by rw [← h]; linarith
    exact_mod_cast this
  apply FormatOdds_pos_general d n h2
  rw [sub64_one_exact d hd (by linarith) (by linarith), mul64_fin, mul_comm, h]
  exact round_int_exact n hn0 hn

/-- A double strictly between 1 and 2 is `1 + M / 2 ^ N` with `N ≤ 52`. -/
theorem isDouble_sub_one_repr (d : ℚ) (hd : isDouble d) (h1 : 1 < d) (h2 : d < 2) :
    ∃ M N : ℕ, 0 < M ∧ N ≤ 52 ∧ (d - 1) * 2 ^ N = (M : ℚ) := by
  obtain ⟨m, k, hq, hm0, hm, hk⟩ := isDouble_repr d hd (by linarith)
  have hu := two_zpow_pos k
  have hk0 : k < 0 := by
    by_contra hc
    have hc : 0 ≤ k := not_lt.mp hc
    have hd' : d = ((m * 2 ^ k.toNat : ℤ) : ℚ) := by
      rw [hq]; push_cast
      rw [← zpow_natCast, Int.toNat_of_nonneg hc]
    have a1 : (1 : ℤ) < m * 2 ^ k.toNat := by
      have : ((1 : ℤ) : ℚ) < ((m * 2 ^ k.toNat : ℤ) : ℚ) := by rw [← hd']; simpa using h1
      exact_mod_cast this
    have a2 : m * 2 ^ k.toNat < (2 : ℤ) := by
      have : ((m * 2 ^ k.toNat : ℤ) : ℚ) < ((2 : ℤ) : ℚ) := by rw [← hd']; simpa using h2
      exact_mod_cast this
    omega
  have hk52 : -52 ≤ k := by
    have h3 : (2 : ℚ) ^ (0 : ℤ) < 2 ^ (53 + k) := by
      have h4 : (2 : ℚ) ^ (53 + k) = 2 ^ (53 : ℤ) * 2 ^ k := zpow_add₀ (by norm_num) _ _
      have h5 : (m : ℚ) ≤ 2 ^ (53 : ℤ) := by exact_mod_cast hm
      rw [h4, zpow_zero]
      calc (1 : ℚ) < d := h1
        _ = m * 2 ^ k := hq
        _ ≤ 2 ^ (53 : ℤ) * 2 ^ k := mul_le_mul_of_nonneg_right h5 hu.le
    have := (zpow_lt_zpow_iff_right₀ (by norm_num : (1 : ℚ) < 2)).mp h3
    omega
  have hone : (2 : ℚ) ^ k * 2 ^ (-k).toNat = 1 := by
    rw [← zpow_natCast, Int.toNat_of_nonneg (by omega), ← zpow_add₀ (by norm_num)]
    simp
  have hval : (d - 1) * 2 ^ (-k).toNat = ((m - 2 ^ (-k).toNat : ℤ) : ℚ) := by
    push_cast
    rw [sub_mul, hq, mul_assoc, hone]
    ring
  have hpos : 0 < m - 2 ^ (-k).toNat := by
    have : (0 : ℚ) < ((m - 2 ^ (-k).toNat : ℤ) : ℚ) := by
      rw [← hval]
      exact mul_pos (by linarith) (by positivity)
    exact_mod_cast this
  refine ⟨(m - 2 ^ (-k).toNat).toNat, (-k).toNat, by omega, by omega, ?_⟩
  rw [hval]
  have : ((m - 2 ^ (-k).toNat).toNat : ℤ) = m - 2 ^ (-k).toNat := Int.toNat_of_nonneg hpos.le
  exact_mod_cast this.symm

theorem FormatOdds_neg_exact (d : ℚ) (m : ℤ) (hd : isDouble d) (h1 : 1 < d) (h2 : d < 2)
    (h : 100 / (d - 1) = (m : ℚ)) :
    FormatOdds (fin d) = "-" ++ Nat.repr m.toNat := by
  have hd1 : 0 < d - 1 := by linarith
  have hm0 : 0 < m := by
    have : (0 : ℚ) < (m : ℚ) := by rw [← h]; positivity
    exact_mod_cast this
  obtain ⟨M, N, hM, hN, hMN⟩ := isDouble_sub_one_repr d hd h1 h2
  have hprod : m.toNat * M = 25 * 2 ^ (N + 2) := by
    have e1 : (100 : ℚ) = m * (d - 1) := by
      rw [← h]; field_simp
    have e2 : ((m.toNat : ℤ) : ℚ) = (m : ℚ) := by
      rw [Int.toNat_of_nonneg hm0.le]
    have : ((m.toNat * M : ℕ) : ℚ) = ((25 * 2 ^ (N + 2) : ℕ) : ℚ) := by
      push_cast
      rw [← hMN]
      have e3 : ((m.toNat : ℕ) : ℚ) = (m : ℚ) := by exact_mod_cast e2
      rw [e3, pow_add]
      linear_combination (-(2 : ℚ) ^ N) * e1
    exact_mod_cast this
  have hdvd : m.toNat ∣ 25 * 2 ^ (N + 2) := ⟨M, hprod.symm⟩
  obtain ⟨y, z, hy, hz, hyz⟩ := Nat.dvd_mul.mp hdvd
  obtain ⟨j, hj, rfl⟩ := (Nat.dvd_prime_pow Nat.prime_two).mp hz
  have hy25 : y ≤ 25 := Nat.le_of_dvd (by norm_num) hy
  have hy0 : 0 < y := by
    rcases Nat.eq_zero_or_pos y with h0 | h0
    · rw [h0, zero_mul] at hyz; omega
    · exact h0
  have hmq : (m : ℚ) = ((y : ℤ) : ℚ) * 2 ^ (j : ℤ) := by
    have : (m : ℤ) = (y : ℤ) * 2 ^ j := by
      rw [← Int.toNat_of_nonneg hm0.le, ← hyz]; push_cast; ring
    rw [this]; push_cast; rw [zpow_natCast]
  have hround : F64.round (fin (m : ℚ)) = fin (m : ℚ) := by
    apply round_exact_pos (m : ℚ) (y : ℤ) (j : ℤ) hmq (by exact_mod_cast hy0) (by omega)
      (by omega)
    rw [hmq]
    have a1 : ((y : ℤ) : ℚ) ≤ 25 := by exact_mod_cast hy25
    have a2 : (2 : ℚ) ^ (j : ℤ) ≤ 2 ^ (54 : ℤ) :=
      zpow_le_zpow_right₀ (by norm_num) (by omega)
    calc ((y : ℤ) : ℚ) * 2 ^ (j : ℤ) ≤ 25 * 2 ^ (54 : ℤ) :=
          mul_le_mul a1 a2 (two_zpow_pos _).le (by norm_num)
      _ < 2 ^ (1024 : ℤ) := by norm_num
  apply FormatOdds_neg_general d m h1 h2
  rw [sub64_one_exact d hd h1 (by linarith [show (2 : ℚ) ≤ 2 ^ 53 by norm_num]),
    div64_fin _ _ hd1.ne', h, hround]


/-! ## The calculator on float64 -/

/-- The calculator on `float64`, in terms of the total and the profit it computes. -/
theorem DetectArbitrage64_eq (cal : Calculator) (env : Env) (o1 o2 : OddsUpdate) :
    DetectArbitrage64 cal env o1 o2 =
      if o1.EventID ≠ o2.EventID then none
      else if F64.ge (total64 (bestOf o1 o2).bestHomeOdds (bestOf o1 o2).bestAwayOdds) (fin 1)
      then none
      else if F64.lt
          (profit64 (total64 (bestOf o1 o2).bestHomeOdds (bestOf o1 o2).bestAwayOdds))
          cal.minProfit
      then none
      else some
        { ID := env.uuid
          EventID := o1.EventID
          Sport := o1.Sport
          HomeTeam := o1.HomeTeam
          AwayTeam := o1.AwayTeam
          BookmakerHome := (bestOf o1 o2).bestHomeBookmaker
          BookmakerAway := (bestOf o1 o2).bestAwayBookmaker
          HomeOdds := (bestOf o1 o2).bestHomeOdds
          AwayOdds := (bestOf o1 o2).bestAwayOdds
          ProfitPercent :=
            profit64 (total64 (bestOf o1 o2).bestHomeOdds (bestOf o1 o2).bestAwayOdds)
          HomeStake := F64.div64
            (F64.mul64 (fin 1000) (F64.div64 (fin 1) (bestOf o1 o2).bestHomeOdds))
            (total64 (bestOf o1 o2).bestHomeOdds (bestOf o1 o2).bestAwayOdds)
          AwayStake := F64.div64
            (F64.mul64 (fin 1000) (F64.div64 (fin 1) (bestOf o1 o2).bestAwayOdds))
            (total64 (bestOf o1 o2).bestHomeOdds (bestOf o1 o2).bestAwayOdds)
          TotalStake := fin 1000
          ExpectedReturn := F64.mul64 (fin 1000) (F64.add64 (fin 1) (F64.div64
            (profit64 (total64 (bestOf o1 o2).bestHomeOdds (bestOf o1 o2).bestAwayOdds))
            (fin 100)))
          CreatedAt := env.createdNow
          ExpiresAt := env.expiresNow + fiveMinutes
          Status := "active" } := rfl

theorem ge_eq_not_lt (x : F64) (c : ℚ) (hx : x ≠ nan) :
    F64.ge x (fin c) = !F64.lt x (fin c) := by
  cases x with
  | fin a =>
    show decide (c ≤ a) = !decide (a < c)
    by_cases h : c ≤ a
    · simp [h]
    · simp [h, not_le.mp h]
  | posInf => rfl
  | negInf => rfl
  | nan => exact absurd rfl hx

theorem div64_one_ne_nan (x : F64) (hx : x ≠ nan) : F64.div64 (fin 1) x ≠ nan := by
  apply round_ne_nan
  cases x with
  | fin t =>
    by_cases ht : t = 0
    · subst ht; rw [div_one_zero]; simp
    · rw [div_fin_of_ne _ _ ht]; simp
  | posInf => simp [F64.div]
  | negInf => simp [F64.div]
  | nan => exact absurd rfl hx

theorem sub64_fin_ne_nan (x : F64) (c : ℚ) (hx : x ≠ nan) : F64.sub64 x (fin c) ≠ nan := by
  apply round_ne_nan
  cases x <;> simp_all [F64.sub, F64.neg, F64.add]

theorem mul64_hundred_ne_nan (x : F64) (hx : x ≠ nan) : F64.mul64 x (fin 100) ≠ nan := by
  apply round_ne_nan
  cases x <;> simp_all [F64.mul, F64.infOfSign]

theorem profit64_ne_nan (t : F64) (ht : t ≠ nan) : profit64 t ≠ nan :=
  mul64_hundred_ne_nan _ (sub64_fin_ne_nan _ _ (div64_one_ne_nan t ht))

/-- The reciprocal of a positive value on `float64` is `+Inf` or a finite value that
is not negative. -/
theorem div64_one_pos (h : ℚ) (hh : 0 < h) :
    F64.div64 (fin 1) (fin h) = posInf ∨ ∃ v, F64.div64 (fin 1) (fin h) = fin v ∧ 0 ≤ v := by
  rw [div64_fin _ _ hh.ne']
  have hq : 0 < 1 / h := by positivity
  cases hr : F64.round (fin (1 / h)) with
  | fin v => exact Or.inr ⟨v, rfl, round_nonneg _ _ hq.le hr⟩
  | posInf => exact Or.inl rfl
  | negInf =>
    rw [round_of_pos _ hq] at hr
    split_ifs at hr
  | nan => exact absurd hr (round_fin_ne_nan _)

theorem total64_ne_nan (h w : ℚ) (hh : 0 < h) (hw : 0 < w) : total64 (fin h) (fin w) ≠ nan := by
  unfold total64 F64.add64
  apply round_ne_nan
  rcases div64_one_pos h hh with e1 | ⟨v, e1, -⟩ <;>
    rcases div64_one_pos w hw with e2 | ⟨u, e2, -⟩ <;> rw [e1, e2] <;> simp [F64.add]


theorem div64_one_lower (h c : ℚ) (a : ℤ) (ha : -1074 ≤ a) (hc : c = 2 ^ a) (hh : 0 < h)
    (hle : h * c ≤ 1) :
    F64.div64 (fin 1) (fin h) = posInf ∨ ∃ v, F64.div64 (fin 1) (fin h) = fin v ∧ c ≤ v := by
  rw [div64_fin _ _ hh.ne', hc]
  apply round_lower _ a ha
  rw [le_div_iff₀ hh, ← hc]
  linarith

theorem add64_ge_one (x y : F64) (cx cy : ℚ)
    (hx : x = posInf ∨ ∃ v, x = fin v ∧ cx ≤ v) (hy : y = posInf ∨ ∃ v, y = fin v ∧ cy ≤ v)
    (hc : 1 ≤ cx + cy) : F64.ge (F64.add64 x y) (fin 1) = true := by
  unfold F64.add64
  rcases hx with rfl | ⟨v, rfl, hv⟩ <;> rcases hy with rfl | ⟨u, rfl, hu⟩
  · rfl
  · rfl
  · rfl
  · rw [add_fin]
    rcases round_lower (v + u) 0 (by norm_num) (by norm_num; linarith) with e | ⟨t, e, ht⟩
    · rw [e]; rfl
    · rw [e, ge_fin]
      exact decide_eq_true (by simpa using ht)

theorem total64_ge_one_of_le_two (h w : ℚ) (hh : 0 < h) (hw : 0 < w) (h2 : h ≤ 2) (w2 : w ≤ 2) :
    F64.ge (total64 (fin h) (fin w)) (fin 1) = true :=
  add64_ge_one _ _ (1 / 2) (1 / 2)
    (div64_one_lower h (1 / 2) (-1) (by norm_num) (by norm_num) hh (by linarith))
    (div64_one_lower w (1 / 2) (-1) (by norm_num) (by norm_num) hw (by linarith))
    (by norm_num)

/-- The calculator on `float64` for finite, strictly positive best odds. -/
theorem DetectArbitrage64_pos (cal : Calculator) (env : Env) (A B : OddsUpdate)
    (ah aw bh bw : ℚ) (hE : A.EventID = B.EventID)
    (hAh : A.HomeOdds = fin ah) (hAw : A.AwayOdds = fin aw)
    (hBh : B.HomeOdds = fin bh) (hBw : B.AwayOdds = fin bw)
    (pH : 0 < max ah bh) (pW : 0 < max aw bw) :
    DetectArbitrage64 cal env A B =
      if F64.ge (total64 (fin (max ah bh)) (fin (max aw bw))) (fin 1) then none
      else if F64.lt (profit64 (total64 (fin (max ah bh)) (fin (max aw bw)))) cal.minProfit
      then none
      else some
        { ID := env.uuid
          EventID := A.EventID
          Sport := A.Sport
          HomeTeam := A.HomeTeam
          AwayTeam := A.AwayTeam
          BookmakerHome := legName ah bh A.Bookmaker B.Bookmaker
          BookmakerAway := legName bw aw B.Bookmaker A.Bookmaker
          HomeOdds := fin (max ah bh)
          AwayOdds := fin (max aw bw)
          ProfitPercent := profit64 (total64 (fin (max ah bh)) (fin (max aw bw)))
          HomeStake := F64.div64 (F64.mul64 (fin 1000) (F64.div64 (fin 1) (fin (max ah bh))))
            (total64 (fin (max ah bh)) (fin (max aw bw)))
          AwayStake := F64.div64 (F64.mul64 (fin 1000) (F64.div64 (fin 1) (fin (max aw bw))))
            (total64 (fin (max ah bh)) (fin (max aw bw)))
          TotalStake := fin 1000
          ExpectedReturn := F64.mul64 (fin 1000) (F64.add64 (fin 1) (F64.div64
            (profit64 (total64 (fin (max ah bh)) (fin (max aw bw)))) (fin 100)))
          CreatedAt := env.createdNow
          ExpiresAt := env.expiresNow + fiveMinutes
          Status := "active" } := by
  rw [DetectArbitrage64_eq, bestOf_fin A B ah bh aw bw hAh hBh hAw hBw,
    if_neg (not_not.mpr hE)]
  simp only [max_eq_right pH.le, max_comm bw aw, max_eq_right pW.le]

/-- C1 amended: for same-event quotes with finite, strictly positive odds and a finite
threshold `m`, `DetectArbitrage` on `float64` returns an opportunity exactly when
`total < 1` and `(1/total - 1) * 100 ≥ m`, where
`total = 1/max(A.home, B.home) + 1/max(A.away, B.away)` and the profit are the
values the code computes, each operation rounded; `total = 1` gives none, quotes
priced at most 2.0 throughout, and so two quotes priced 1.90/1.90, give none, and a
returned opportunity has `ProfitPercent = (1/total - 1) * 100` as computed. -/
theorem C1_detect_iff_total_lt_one (cal : Calculator) (env : Env) (A B : OddsUpdate)
    (m ah aw bh bw : ℚ) (hE : A.EventID = B.EventID) (hm : cal.minProfit = fin m)
    (hAh : A.HomeOdds = fin ah) (hAw : A.AwayOdds = fin aw)
    (hBh : B.HomeOdds = fin bh) (hBw : B.AwayOdds = fin bw)
    (pAh : 0 < ah) (pAw : 0 < aw) (pBh : 0 < bh) (pBw : 0 < bw) :
    ((DetectArbitrage64 cal env A B).isSome = true ↔
        F64.lt (total64 (fin (max ah bh)) (fin (max aw bw))) (fin 1) = true
        ∧ F64.ge (profit64 (total64 (fin (max ah bh)) (fin (max aw bw)))) (fin m) = true)
    ∧ (total64 (fin (max ah bh)) (fin (max aw bw)) = fin 1 →
        DetectArbitrage64 cal env A B = none)
    ∧ (max ah bh ≤ 2 → max aw bw ≤ 2 → DetectArbitrage64 cal env A B = none)
    ∧ (ah = double190 → aw = double190 → bh = double190 → bw = double190 →
        DetectArbitrage64 cal env A B = none)
    ∧ (∀ opp, DetectArbitrage64 cal env A B = some opp →
        opp.ProfitPercent = profit64 (total64 (fin (max ah bh)) (fin (max aw bw)))) := by
  have pH : 0 < max ah bh := lt_max_of_lt_left pAh
  have pW : 0 < max aw bw := lt_max_of_lt_left pAw
  have key := DetectArbitrage64_pos cal env A B ah aw bh bw hE hAh hAw hBh hBw pH pW
  have hT := total64_ne_nan _ _ pH pW
  have hP := profit64_ne_nan _ hT
  have two : max ah bh ≤ 2 → max aw bw ≤ 2 → DetectArbitrage64 cal env A B = none := by
    intro h1 h2
    rw [key, if_pos (total64_ge_one_of_le_two _ _ pH pW h1 h2)]
  rw [hm] at key
  refine ⟨?_, ?_, two, ?_, ?_⟩
  · rw [key, ge_eq_not_lt _ 1 hT, ge_eq_not_lt _ m hP]
    cases h1 : F64.lt (total64 (fin (max ah bh)) (fin (max aw bw))) (fin 1) <;>
      cases h2 : F64.lt (profit64 (total64 (fin (max ah bh)) (fin (max aw bw)))) (fin m) <;>
      simp
  · intro h1
    have h2 : F64.ge (total64 (fin (max ah bh)) (fin (max aw bw))) (fin 1) = true := by
      rw [h1, ge_fin]; exact decide_eq_true (le_refl (1 : ℚ))
    rw [key, if_pos h2]
  · intro e1 e2 e3 e4
    subst e1 e2 e3 e4
    exact two (by unfold double190; norm_num) (by unfold double190; norm_num)
  · intro opp h
    rw [key] at h
    split_ifs at h
    rw [← Option.some.inj h]


theorem total64_edge : total64 (fin (5 / 2)) (fin doubleFiveThirds) = fin 1 := by
  unfold total64 doubleFiveThirds
  rw [div64_fin _ _ (by norm_num), div64_fin _ _ (by norm_num)]
  have h1 := round_pos_near (1 / (5 / 2)) (-2) 7205759403792794 (by norm_num) (by norm_num)
    (by norm_num) (by norm_num) (by norm_num) (by norm_num)
  have h2 := round_pos_near (1 / (7505999378950827 / 4503599627370496)) (-1) 5404319552844595
    (by norm_num) (by norm_num) (by norm_num) (by norm_num) (by norm_num) (by norm_num)
  rw [h1, h2, add64_fin]
  have h3 : ((7205759403792794 : ℤ) : ℚ) * 2 ^ ((-2 : ℤ) - 52)
      + ((5404319552844595 : ℤ) : ℚ) * 2 ^ ((-1 : ℤ) - 52) = 1 := by norm_num
  rw [h3]
  exact round_exact 1 1 0 (by norm_num) (by norm_num) (by norm_num) (by norm_num) (by norm_num)
    (by norm_num)

/-- C1 as stated fails when `total` is read as the real number: for two quotes priced
home 2.5 and away 1.6666666666666667 (both doubles) with threshold 0, the exact total
`1/2.5 + 1/1.6666666666666667` is below 1 and the exact profit is at least 0, but the
code computes a total of exactly 1.0 and returns no opportunity. -/
theorem C1_exact_total_counterexample :
    isDouble (5 / 2) ∧ isDouble doubleFiveThirds
    ∧ quoteEdgeX.EventID = quoteEdgeY.EventID
    ∧ quoteEdgeX.HomeOdds = fin (5 / 2) ∧ quoteEdgeX.AwayOdds = fin doubleFiveThirds
    ∧ quoteEdgeY.HomeOdds = fin (5 / 2) ∧ quoteEdgeY.AwayOdds = fin doubleFiveThirds
    ∧ calcZero.minProfit = fin 0
    ∧ 1 / max (5 / 2 : ℚ) (5 / 2) + 1 / max doubleFiveThirds doubleFiveThirds < 1
    ∧ (0 : ℚ) ≤ (1 / (1 / max (5 / 2 : ℚ) (5 / 2)
        + 1 / max doubleFiveThirds doubleFiveThirds) - 1) * 100
    ∧ total64 (fin (5 / 2)) (fin doubleFiveThirds) = fin 1
    ∧ DetectArbitrage64 calcZero env0 quoteEdgeX quoteEdgeY = none := by
  refine ⟨?_, ?_, rfl, rfl, rfl, rfl, rfl, rfl, ?_, ?_, total64_edge, ?_⟩
  · exact round_exact _ 5 (-1) (by norm_num) (by norm_num) (by norm_num) (by norm_num)
      (by norm_num) (by norm_num)
  · exact round_exact _ 7505999378950827 (-52) (by unfold doubleFiveThirds; norm_num)
      (by norm_num) (by norm_num) (by norm_num) (by unfold doubleFiveThirds; norm_num)
      (by unfold doubleFiveThirds; norm_num)
  · unfold doubleFiveThirds; norm_num
  · unfold doubleFiveThirds; norm_num
  · rw [DetectArbitrage64_pos calcZero env0 quoteEdgeX quoteEdgeY (5 / 2) doubleFiveThirds
      (5 / 2) doubleFiveThirds rfl rfl rfl rfl rfl (by norm_num)
      (by unfold doubleFiveThirds; norm_num)]
    rw [max_self, max_self, total64_edge]
    rfl

/-- C1 at two quotes priced in doubles, home 4 / away 1.5 and home 2 / away 2, with
the 0.5% threshold. -/
theorem C1_detect_iff_total_lt_one_witness :
    (DetectArbitrage64 calcHalf env0 (quote "e" "X" 4 (3 / 2) 0) (quote "e" "Y" 2 2 0)).isSome
        = true ↔
      F64.lt (total64 (fin (max 4 2)) (fin (max (3 / 2) 2))) (fin 1) = true
      ∧ F64.ge (profit64 (total64 (fin (max 4 2)) (fin (max (3 / 2) 2)))) (fin (1 / 2))
          = true :=
  (C1_detect_iff_total_lt_one calcHalf env0 (quote "e" "X" 4 (3 / 2) 0) (quote "e" "Y" 2 2 0)
    (1 / 2) 4 (3 / 2) 2 2 rfl rfl rfl rfl rfl rfl (by norm_num) (by norm_num) (by norm_num)
    (by norm_num)).1

theorem total64_huge : total64 (fin (2 ^ 1023)) (fin (2 ^ 1023)) = fin (1 / 2 ^ 1022) := by
  unfold total64
  rw [div64_fin _ _ (by norm_num)]
  have h1 : F64.round (fin (1 / 2 ^ 1023)) = fin (1 / 2 ^ 1023) :=
    round_exact _ 1 (-1023) (by norm_num) (by norm_num) (by norm_num) (by norm_num)
      (by norm_num) (by norm_num)
  rw [h1, add64_fin]
  have h2 : (1 / 2 ^ 1023 + 1 / 2 ^ 1023 : ℚ) = 1 / 2 ^ 1022 := by norm_num
  rw [h2]
  exact round_exact _ 1 (-1022) (by norm_num) (by norm_num) (by norm_num) (by norm_num)
    (by norm_num) (by norm_num)

theorem profit64_huge : profit64 (fin (1 / 2 ^ 1022)) = posInf := by
  unfold profit64
  rw [div64_fin _ _ (by norm_num)]
  have h1 : F64.round (fin (1 / (1 / 2 ^ 1022))) = fin (2 ^ 1022) := by
    have e : (1 / (1 / 2 ^ 1022) : ℚ) = 2 ^ 1022 := by norm_num
    rw [e]
    exact round_exact _ 1 1022 (by norm_num) (by norm_num) (by norm_num) (by norm_num)
      (by norm_num) (by norm_num)
  rw [h1, sub64_fin]
  have h2 := round_pos_near (2 ^ 1022 - 1) 1021 (2 ^ 53) (by norm_num) (by norm_num)
    (by norm_num) (by norm_num) (by norm_num) (by norm_num)
  rw [h2, mul64_fin]
  exact round_overflow _ (by norm_num)

theorem expectedReturn_posInf :
    F64.mul64 (fin 1000) (F64.add64 (fin 1) (F64.div64 posInf (fin 100))) = posInf := by
  have h1 : F64.div posInf (fin 100) = posInf := by
    show (if (100 : ℚ) < 0 then negInf else posInf) = posInf
    rw [if_neg (by norm_num)]
  have h2 : F64.div64 posInf (fin 100) = posInf := by
    unfold F64.div64; rw [h1]; rfl
  have h3 : F64.add64 (fin 1) posInf = posInf := rfl
  have h4 : F64.mul (fin 1000) posInf = posInf := by
    show F64.infOfSign true 1000 = posInf
    unfold F64.infOfSign
    rw [if_neg (by norm_num), if_pos (by simp)]
  rw [h2, h3]
  unfold F64.mul64; rw [h4]; rfl

/-- C4 as stated fails: for two quotes priced at the double `2 ^ 1023`, with the 0.5%
threshold, the code returns an opportunity whose `ProfitPercent` and
`ExpectedReturn` are `+Inf`. -/
theorem C4_overflow_counterexample :
    isDouble (2 ^ 1023)
    ∧ quoteHugeX.EventID = quoteHugeY.EventID
    ∧ ∃ opp, DetectArbitrage64 calcHalf env0 quoteHugeX quoteHugeY = some opp
      ∧ opp.ProfitPercent = posInf ∧ opp.ExpectedReturn = posInf
      ∧ opp.ProfitPercent.isFinite = false ∧ opp.ExpectedReturn.isFinite = false := by
  refine ⟨?_, rfl, ?_⟩
  · exact round_exact _ 1 1023 (by norm_num) (by norm_num) (by norm_num) (by norm_num)
      (by norm_num) (by norm_num)
  · have key := DetectArbitrage64_pos calcHalf env0 quoteHugeX quoteHugeY (2 ^ 1023) (2 ^ 1023)
      (2 ^ 1023) (2 ^ 1023) rfl rfl rfl rfl rfl (by norm_num) (by norm_num)
    rw [max_self, total64_huge, profit64_huge] at key
    have hge : F64.ge (fin (1 / 2 ^ 1022)) (fin 1) = false := by
      rw [ge_fin]; exact decide_eq_false (by norm_num)
    have hlt : F64.lt posInf calcHalf.minProfit = false := rfl
    rw [hge, hlt] at key
    simp only [Bool.false_eq_true, if_false] at key
    rw [expectedReturn_posInf] at key
    exact ⟨_, key, rfl, rfl, rfl, rfl⟩


theorem div64_one_nonneg (h : ℚ) (hh : 0 ≤ h) :
    F64.div64 (fin 1) (fin h) = posInf ∨ ∃ v, F64.div64 (fin 1) (fin h) = fin v ∧ 0 ≤ v := by
  rcases hh.eq_or_lt with h0 | hpos
  · subst h0
    left
    unfold F64.div64; rw [div_one_zero]; rfl
  · exact div64_one_pos h hpos

theorem div64_one_of_le_one (h : ℚ) (hh : 0 ≤ h) (h1 : h ≤ 1) :
    F64.div64 (fin 1) (fin h) = posInf ∨ ∃ v, F64.div64 (fin 1) (fin h) = fin v ∧ 1 ≤ v := by
  rcases hh.eq_or_lt with h0 | hpos
  · subst h0
    left
    unfold F64.div64; rw [div_one_zero]; rfl
  · exact div64_one_lower h 1 0 (by norm_num) (by norm_num) hpos (by linarith)

/-- Best odds of at most 1 on either leg give a total of at least 1 on `float64`. -/
theorem total64_ge_one_of_le_one (h w : ℚ) (hh : 0 ≤ h) (hw : 0 ≤ w) (h1 : h ≤ 1 ∨ w ≤ 1) :
    F64.ge (total64 (fin h) (fin w)) (fin 1) = true := by
  rcases h1 with h1 | h1
  · exact add64_ge_one _ _ 1 0 (div64_one_of_le_one h hh h1) (div64_one_nonneg w hw)
      (by norm_num)
  · exact add64_ge_one _ _ 0 1 (div64_one_nonneg h hh) (div64_one_of_le_one w hw h1)
      (by norm_num)

theorem DetectArbitrage64_none_of_le_one (cal : Calculator) (env : Env) (A B : OddsUpdate)
    (ah aw bh bw : ℚ) (hAh : A.HomeOdds = fin ah) (hAw : A.AwayOdds = fin aw)
    (hBh : B.HomeOdds = fin bh) (hBw : B.AwayOdds = fin bw)
    (h : max ah bh ≤ 1 ∨ max aw bw ≤ 1) : DetectArbitrage64 cal env A B = none := by
  rw [DetectArbitrage64_eq, bestOf_fin A B ah bh aw bw hAh hBh hAw hBw]
  by_cases hE : A.EventID ≠ B.EventID
  · rw [if_pos hE]
  · rw [if_neg hE, if_pos]
    apply total64_ge_one_of_le_one _ _ (le_max_left _ _) (le_max_left _ _)
    rcases h with h | h
    · exact Or.inl (max_le (by norm_num) h)
    · exact Or.inr (max_le (by norm_num) (by rw [max_comm]; exact h))

/-- The results of the calculator on `float64` are finite when one of the best odds
is at most `2 ^ 1000`. -/
theorem results_finite (H W : ℚ) (hH : 1 < H) (hW : 1 < W)
    (hb : H ≤ 2 ^ (1000 : ℤ) ∨ W ≤ 2 ^ (1000 : ℤ))
    (hge : F64.ge (total64 (fin H) (fin W)) (fin 1) = false) :
    (profit64 (total64 (fin H) (fin W))).isFinite = true
    ∧ (F64.div64 (F64.mul64 (fin 1000) (F64.div64 (fin 1) (fin H)))
        (total64 (fin H) (fin W))).isFinite = true
    ∧ (F64.div64 (F64.mul64 (fin 1000) (F64.div64 (fin 1) (fin W)))
        (total64 (fin H) (fin W))).isFinite = true
    ∧ (F64.mul64 (fin 1000) (F64.add64 (fin 1) (F64.div64
        (profit64 (total64 (fin H) (fin W))) (fin 100)))).isFinite = true := by
  have hH0 : 0 < H := by linarith
  have hW0 : 0 < W := by linarith
  have c1 : (2 : ℚ) ^ (-1000 : ℤ) * 2 ^ (1000 : ℤ) = 1 := by
    rw [← zpow_add₀ (by norm_num)]; norm_num
  have cpos := two_zpow_pos (-1000)
  have cpos' := two_zpow_pos 1000
  -- the implied probabilities
  obtain ⟨v, hv, v0, v1⟩ := round_upper (1 / H) 0 (by norm_num) (by norm_num) (by positivity)
    (by rw [zpow_zero, div_le_one hH0]; exact hH.le)
  obtain ⟨w, hw, w0, w1⟩ := round_upper (1 / W) 0 (by norm_num) (by norm_num) (by positivity)
    (by rw [zpow_zero, div_le_one hW0]; exact hW.le)
  rw [zpow_zero] at v1 w1
  have hsum : (2 : ℚ) ^ (-1000 : ℤ) ≤ v + w := by
    rcases hb with hb | hb
    · have hlo : (2 : ℚ) ^ (-1000 : ℤ) ≤ 1 / H := by
        rw [le_div_iff₀ hH0]
        calc (2 : ℚ) ^ (-1000 : ℤ) * H ≤ 2 ^ (-1000 : ℤ) * 2 ^ (1000 : ℤ) :=
              mul_le_mul_of_nonneg_left hb cpos.le
          _ = 1 := c1
      rcases round_lower _ _ (by norm_num) hlo with e | ⟨v', e, hv'⟩
      · rw [hv] at e; exact absurd e (by simp)
      · rw [hv] at e; injection e with e; rw [← e] at hv'; linarith
    · have hlo : (2 : ℚ) ^ (-1000 : ℤ) ≤ 1 / W := by
        rw [le_div_iff₀ hW0]
        calc (2 : ℚ) ^ (-1000 : ℤ) * W ≤ 2 ^ (-1000 : ℤ) * 2 ^ (1000 : ℤ) :=
              mul_le_mul_of_nonneg_left hb cpos.le
          _ = 1 := c1
      rcases round_lower _ _ (by norm_num) hlo with e | ⟨w', e, hw'⟩
      · rw [hw] at e; exact absurd e (by simp)
      · rw [hw] at e; injection e with e; rw [← e] at hw'; linarith
  have hih : F64.div64 (fin 1) (fin H) = fin v := by rw [div64_fin _ _ hH0.ne', hv]
  have hiw : F64.div64 (fin 1) (fin W) = fin w := by rw [div64_fin _ _ hW0.ne', hw]
  -- the total
  obtain ⟨t, ht, t0, t1⟩ := round_within (v + w) (-1000) 1 (by norm_num) (by norm_num) hsum
    (by norm_num; linarith)
  have hT : total64 (fin H) (fin W) = fin t := by
    unfold total64; rw [hih, hiw, add64_fin, ht]
  rw [hT] at hge ⊢
  have tlt : t < 1 := by
    rw [ge_fin] at hge
    exact not_le.mp (of_decide_eq_false hge)
  have tpos : 0 < t := lt_of_lt_of_le cpos t0
  -- the profit
  obtain ⟨u, hu, u1, u2⟩ := round_within (1 / t) 0 1000 (by norm_num) (by norm_num)
    (by rw [zpow_zero, le_div_iff₀ tpos]; linarith)
    (by
      rw [div_le_iff₀ tpos]
      calc (1 : ℚ) = 2 ^ (-1000 : ℤ) * 2 ^ (1000 : ℤ) := c1.symm
        _ = 2 ^ (1000 : ℤ) * 2 ^ (-1000 : ℤ) := mul_comm _ _
        _ ≤ 2 ^ (1000 : ℤ) * t := mul_le_mul_of_nonneg_left t0 cpos'.le)
  rw [zpow_zero] at u1
  obtain ⟨s, hs, s0, s1⟩ := round_upper (u - 1) 1000 (by norm_num) (by norm_num)
    (by linarith) (by linarith)
  have c2 : (2 : ℚ) ^ (1000 : ℤ) * 100 ≤ 2 ^ (1007 : ℤ) := by
    have : (2 : ℚ) ^ (1007 : ℤ) = 2 ^ (1000 : ℤ) * 2 ^ (7 : ℤ) := by
      rw [← zpow_add₀ (by norm_num)]; norm_num
    rw [this]
    exact mul_le_mul_of_nonneg_left (by norm_num) cpos'.le
  obtain ⟨p, hp, p0, p1⟩ := round_upper (s * 100) 1007 (by norm_num) (by norm_num)
    (by positivity) ((mul_le_mul_of_nonneg_right s1 (by norm_num)).trans c2)
  have hP : profit64 (fin t) = fin p := by
    unfold profit64
    rw [div64_fin _ _ tpos.ne', hu, sub64_fin, hs, mul64_fin, hp]
  -- the expected return
  have p7 := two_zpow_pos 1007
  obtain ⟨pd, hpd, pd0, pd1⟩ := round_upper (p / 100) 1007 (by norm_num) (by norm_num)
    (by positivity) (by
      rw [div_le_iff₀ (by norm_num)]
      linarith)
  have c3 : (1 : ℚ) + 2 ^ (1007 : ℤ) ≤ 2 ^ (1008 : ℤ) := by
    have : (2 : ℚ) ^ (1008 : ℤ) = 2 ^ (1007 : ℤ) * 2 ^ (1 : ℤ) := by
      rw [← zpow_add₀ (by norm_num)]; norm_num
    have h1 : (1 : ℚ) ≤ 2 ^ (1007 : ℤ) := by
      calc (1 : ℚ) = 2 ^ (0 : ℤ) := by norm_num
        _ ≤ 2 ^ (1007 : ℤ) := zpow_le_zpow_right₀ (by norm_num) (by norm_num)
    rw [this, zpow_one]
    linarith
  obtain ⟨ad, had, ad0, ad1⟩ := round_upper (1 + pd) 1008 (by norm_num) (by norm_num)
    (by linarith) (by linarith)
  have p8 := two_zpow_pos 1008
  have c4 : (1000 : ℚ) * 2 ^ (1008 : ℤ) ≤ 2 ^ (1018 : ℤ) := by
    have : (2 : ℚ) ^ (1018 : ℤ) = 2 ^ (10 : ℤ) * 2 ^ (1008 : ℤ) := by
      rw [← zpow_add₀ (by norm_num)]; norm_num
    rw [this]
    exact mul_le_mul_of_nonneg_right (by norm_num) p8.le
  obtain ⟨er, her, -, -⟩ := round_upper (1000 * ad) 1018 (by norm_num) (by norm_num)
    (by positivity) ((mul_le_mul_of_nonneg_left ad1 (by norm_num)).trans c4)
  have hER : F64.mul64 (fin 1000) (F64.add64 (fin 1) (F64.div64 (fin p) (fin 100))) = fin er := by
    rw [div64_fin _ _ (by norm_num), hpd, add64_fin, had, mul64_fin, her]
  -- the stakes
  have c5 : (2 : ℚ) ^ (10 : ℤ) ≤ 2 ^ (1010 : ℤ) * t := by
    have : (2 : ℚ) ^ (10 : ℤ) = 2 ^ (1010 : ℤ) * 2 ^ (-1000 : ℤ) := by
      rw [← zpow_add₀ (by norm_num)]; norm_num
    rw [this]
    exact mul_le_mul_of_nonneg_left t0 (two_zpow_pos 1010).le
  have stake : ∀ x : ℚ, 0 ≤ x → x ≤ 1 →
      ∃ r, F64.div64 (F64.mul64 (fin 1000) (fin x)) (fin t) = fin r := by
    intro x x0 x1
    obtain ⟨y, hy, y0, y1⟩ := round_upper (1000 * x) 10 (by norm_num) (by norm_num)
      (by positivity) (by norm_num; linarith)
    obtain ⟨r, hr, -, -⟩ := round_upper (y / t) 1010 (by norm_num) (by norm_num)
      (by positivity) (by rw [div_le_iff₀ tpos]; linarith)
    exact ⟨r, by rw [mul64_fin, hy, div64_fin _ _ tpos.ne', hr]⟩
  obtain ⟨hs', hhs⟩ := stake v v0 v1
  obtain ⟨as', has⟩ := stake w w0 w1
  rw [hP, hih, hiw, hhs, has, hER]
  exact ⟨rfl, rfl, rfl, rfl⟩


/-- C4 amended: on `float64`, for quotes with finite odds (zero and negative odds
included, where the implied probability `1/0` is `+Inf`) and any threshold, if the
best home odds or the best away odds are at most 1 then no opportunity is returned;
every returned opportunity has `HomeOdds > 1` and `AwayOdds > 1`, and its
`ProfitPercent`, `HomeStake`, `AwayStake` and `ExpectedReturn` are finite whenever
the best home odds or the best away odds are at most `1e300`. -/
theorem C4_degenerate_odds_none (cal : Calculator) (env : Env) (A B : OddsUpdate)
    (ah aw bh bw : ℚ) (hAh : A.HomeOdds = fin ah) (hAw : A.AwayOdds = fin aw)
    (hBh : B.HomeOdds = fin bh) (hBw : B.AwayOdds = fin bw) :
    (max ah bh ≤ 1 ∨ max aw bw ≤ 1 → DetectArbitrage64 cal env A B = none)
    ∧ (∀ opp, DetectArbitrage64 cal env A B = some opp →
        F64.gt opp.HomeOdds (fin 1) = true ∧ F64.gt opp.AwayOdds (fin 1) = true
        ∧ (max ah bh ≤ 10 ^ 300 ∨ max aw bw ≤ 10 ^ 300 →
            opp.ProfitPercent.isFinite = true ∧ opp.HomeStake.isFinite = true
            ∧ opp.AwayStake.isFinite = true ∧ opp.ExpectedReturn.isFinite = true)) := by
  have none1 := DetectArbitrage64_none_of_le_one cal env A B ah aw bh bw hAh hAw hBh hBw
  refine ⟨none1, ?_⟩
  intro opp h
  have hH : 1 < max ah bh := by
    by_contra hc
    rw [none1 (Or.inl (not_lt.mp hc))] at h
    exact absurd h (by simp)
  have hW : 1 < max aw bw := by
    by_contra hc
    rw [none1 (Or.inr (not_lt.mp hc))] at h
    exact absurd h (by simp)
  have hE : A.EventID = B.EventID := by
    by_contra hc
    rw [DetectArbitrage64_eq, if_pos hc] at h
    exact absurd h (by simp)
  rw [DetectArbitrage64_pos cal env A B ah aw bh bw hE hAh hAw hBh hBw (by linarith)
    (by linarith)] at h
  split_ifs at h with g1 g2
  have hopp := (Option.some.inj h).symm
  subst hopp
  refine ⟨?_, ?_, ?_⟩
  · show decide (1 < max ah bh) = true
    exact decide_eq_true hH
  · show decide (1 < max aw bw) = true
    exact decide_eq_true hW
  · intro hb
    have hpow : (10 : ℚ) ^ 300 ≤ 2 ^ (1000 : ℤ) := by norm_num
    exact results_finite (max ah bh) (max aw bw) hH hW
      (hb.imp (fun x => x.trans hpow) (fun x => x.trans hpow)) (by simpa using g1)

/-- C4 at home odds 0 and -1: the best home odds are 0 and `1/0` is `+Inf`. -/
theorem C4_degenerate_odds_none_witness :
    DetectArbitrage64 calcHalf env0 (quote "e" "X" 0 2 0) (quote "e" "Z" (-1) 3 0) = none :=
  (C4_degenerate_odds_none calcHalf env0 (quote "e" "X" 0 2 0) (quote "e" "Z" (-1) 3 0)
    0 2 (-1) 3 rfl rfl rfl rfl).1 (Or.inl (by norm_num))

/-- C12 as stated fails: the double `2 ^ 47 + 1.25` is at least 2 and
`100 * (decimal - 1)` is the integer 14073748835532825, but the product rounds to
the even neighbour on `float64` and `FormatOdds` returns `+14073748835532824`. -/
theorem C12_FormatOdds_counterexample :
    isDouble bigDecimal ∧ 2 ≤ bigDecimal
    ∧ 100 * (bigDecimal - 1) = ((14073748835532825 : ℤ) : ℚ)
    ∧ FormatOdds (fin bigDecimal) = "+14073748835532824"
    ∧ FormatOdds (fin bigDecimal) ≠ "+" ++ Nat.repr (14073748835532825 : ℤ).toNat := by
  have hF : FormatOdds (fin bigDecimal) = "+14073748835532824" := by
    rw [FormatOdds_ge _ (by unfold bigDecimal; norm_num), bigDecimal_product,
      sprintf0_int _ (by norm_num)]
    rfl
  refine ⟨?_, by unfold bigDecimal; norm_num, by unfold bigDecimal; norm_num, hF, ?_⟩
  · exact round_exact _ (2 ^ 49 + 5) (-2) (by unfold bigDecimal; norm_num) (by norm_num)
      (by norm_num) (by norm_num) (by unfold bigDecimal; norm_num)
      (by unfold bigDecimal; norm_num)
  · rw [hF]
    decide

/-- C12 amended: on `float64`, `FormatOdds(2.50) = "+150"` and
`FormatOdds(1.50) = "-200"`; for every double `d ≥ 2` for which `100 * (d - 1)` is an
integer `n` below `2 ^ 53` the result is `+` followed by the decimal digits of `n`,
and for every double `1 < d < 2` for which `100 / (d - 1)` is an integer `m` the result
is `-` followed by the decimal digits of `m`; for every `d ≥ 2`, whatever the size,
the digits are those of the product `(d - 1) * 100` as the code computes it, whenever
that is an integer, and likewise for the quotient when `1 < d < 2`. -/
theorem C12_FormatOdds_moneyline :
    FormatOdds (fin (5 / 2)) = "+150" ∧ FormatOdds (fin (3 / 2)) = "-200"
    ∧ (∀ (d : ℚ) (n : ℤ), isDouble d → 2 ≤ d → 100 * (d - 1) = (n : ℚ) → n < 2 ^ 53 →
        FormatOdds (fin d) = "+" ++ Nat.repr n.toNat)
    ∧ (∀ (d : ℚ) (m : ℤ), isDouble d → 1 < d → d < 2 → 100 / (d - 1) = (m : ℚ) →
        FormatOdds (fin d) = "-" ++ Nat.repr m.toNat)
    ∧ (∀ (d : ℚ) (n : ℤ), 2 ≤ d →
        F64.mul64 (F64.sub64 (fin d) (fin 1)) (fin 100) = fin (n : ℚ) →
        FormatOdds (fin d) = "+" ++ Nat.repr n.toNat)
    ∧ (∀ (d : ℚ) (m : ℤ), 1 < d → d < 2 →
        F64.div64 (fin 100) (F64.sub64 (fin d) (fin 1)) = fin (m : ℚ) →
        FormatOdds (fin d) = "-" ++ Nat.repr m.toNat) :=
  ⟨FormatOdds_250, FormatOdds_150, FormatOdds_pos_exact, FormatOdds_neg_exact,
    FormatOdds_pos_general, FormatOdds_neg_general⟩

/-- C12 at the doubles 2.25, which gives `+125`, and 1.25, which gives `-400`. -/
theorem C12_FormatOdds_moneyline_witness :
    FormatOdds (fin (9 / 4)) = "+125" ∧ FormatOdds (fin (5 / 4)) = "-400" :=
  ⟨C12_FormatOdds_moneyline.2.2.1 (9 / 4) 125
      (round_exact _ 9 (-2) (by norm_num) (by norm_num) (by norm_num) (by norm_num)
        (by norm_num) (by norm_num))
      (by norm_num) (by norm_num) (by norm_num),
    C12_FormatOdds_moneyline.2.2.2.1 (5 / 4) 400
      (round_exact _ 5 (-2) (by norm_num) (by norm_num) (by norm_num) (by norm_num)
        (by norm_num) (by norm_num))
      (by norm_num) (by norm_num) (by norm_num)⟩

end Arbitrage
